import Mathlib

/-!
Verification development for the audio format converter (`convert.py`).

The program batch-converts audio files in a directory tree to a target
format/bitrate with an external encoder, keeps a persistent "lock file"
ledger of prior conversions, and copies sidecar image/NFO files.

This file gives a shallow embedding of the decision engine
(`process_files`), the probe (`get_audio_info`), the ledger operations
(`read_lock_file` / `update_lock_file` merge semantics) and argument
validation (`validate_paths_and_parameters`), together with theorems about
the behavioural claims of the specification.

Modelling conventions:
- the filesystem is a list of existing file paths (copy/encode/remove
  change it); directory creation is recorded as an event, not as state;
- the external tools (ffprobe, ffmpeg, shutil.copy) are oracles in `Env`;
  `get_audio_info` itself is embedded over a structured model of the
  ffprobe subprocess result;
- every external call the engine makes is recorded in an event trace so
  that "the encoder is never invoked" style claims are statable;
- paths are plain strings; `os.path.join a b` is `a ++ "/" ++ b` (the
  arguments produced by `os.walk` never carry trailing separators).
-/

namespace MusicConverter

/-- Audio extensions handled by `process_files` (line 387 of the source). -/
def audioExts : List String := ["mp3", "flac", "wav", "m4a", "ogg", "opus", "wma", "aac"]

/-- Sidecar extensions handled by `process_files` (line 458 of the source). -/
def sidecarExts : List String := ["jpg", "jpeg", "png", "gif", "bmp", "webp", "nfo"]

/-- Valid target formats checked by `validate_paths_and_parameters` (line 193). -/
def validFormats : List String := ["mp3", "flac", "wav", "m4a", "ogg", "opus", "wma", "aac"]

/-- Valid target bitrates checked by `validate_paths_and_parameters` (line 198). -/
def validBitrates : List String := ["32k", "64k", "128k", "192k", "256k", "320k"]

/-- Status recorded in a ledger (lock-file) entry: the source writes either
the string "converted" or "correct_format". -/
inductive Status where
  | converted
  | correct_format
deriving DecidableEq

/-- One value of the lock-file JSON object: `{'format', 'bitrate', 'timestamp', 'status'}`. -/
structure LedgerEntry where
  format : String
  bitrate : String
  timestamp : String
  status : Status
deriving DecidableEq

/-- The lock file's JSON object: source path keyed, insertion ordered
(Python dict). -/
abbrev Ledger := List (String × LedgerEntry)

/-- Python `dict.get` on the ledger. -/
def lookupL : Ledger → String → Option LedgerEntry
  | [], _ => none
  | (k, v) :: rest, p => if k = p then some v else lookupL rest p

/-- Python `d[k] = v` on the ledger: replaces in place or appends. -/
def insertL : Ledger → String → LedgerEntry → Ledger
  | [], k, v => [(k, v)]
  | (k0, v0) :: rest, k, v =>
    if k0 = k then (k, v) :: rest else (k0, v0) :: insertL rest k v

/-- Python `old.update(new)`: every key of `new` overwrites `old`. -/
def mergeLedger (old new : Ledger) : Ledger :=
  new.foldl (fun acc kv => insertL acc kv.1 kv.2) old

/-- The lock-file check of `process_files` (line 390): an entry exists for
the path and its format and bitrate both equal the requested target. -/
def ledgerHit (info : Ledger) (fmt br p : String) : Bool :=
  match lookupL info p with
  | some e => e.format == fmt && e.bitrate == br
  | none => false

/-! ### Character-level string helpers

Implemented over `List Char` rather than with the `String` library
functions so that concrete runs reduce inside the kernel. -/

/-- `str.lower()` (ASCII data in practice). -/
def pyLower (s : String) : String :=
  String.mk (s.data.map Char.toLower)

/-- Accumulator loop for splitting a character list on a separator. -/
def splitCharAux (c : Char) : List Char → List Char → List (List Char)
  | [], acc => [acc.reverse]
  | x :: xs, acc =>
    if x = c then acc.reverse :: splitCharAux c xs []
    else splitCharAux c xs (x :: acc)

/-- Python `s.split(c)` for a single-character separator: always returns
at least one piece. -/
def splitChar (s : String) (c : Char) : List String :=
  (splitCharAux c s.data []).map String.mk

/-- Digit-list value; `none` on a non-digit character. -/
def digitsValAux : List Char → Nat → Option Nat
  | [], acc => some acc
  | ch :: cs, acc =>
    if ch.isDigit then digitsValAux cs (acc * 10 + (ch.toNat - 48)) else none

/-- Python `int(s)` on the decimal forms that occur in ffprobe output: an
optional minus sign followed by digits.  `none` models a raised
ValueError.  (Python additionally tolerates surrounding whitespace, an
explicit plus sign and underscores; those never occur here.) -/
def pyToInt? (s : String) : Option Int :=
  match s.data with
  | [] => none
  | '-' :: rest =>
    match rest with
    | [] => none
    | _ => (digitsValAux rest 0).map (fun n => -(n : Int))
  | cs => (digitsValAux cs 0).map (fun n => (n : Int))

/-! ### Binary64 division model

Line 271 computes `int(int(bitrate)/1000)`: the quotient is taken in
binary64 (Python float true division, round to nearest, ties to even)
and then truncated by `int()`.  For quotients below 2^53 this equals the
exact integer quotient, but not beyond, so the division is modelled
bit-exactly. -/

/-- Bit length (number of binary digits) of a natural number, by fuelled
halving; `bitLen n` uses fuel `n`, which always suffices. -/
def bitLenAux : Nat → Nat → Nat
  | 0, _ => 0
  | fuel + 1, n => if n = 0 then 0 else bitLenAux fuel (n / 2) + 1

/-- Bit length: 0 for 0, otherwise the exponent h with 2^(h-1) ≤ n < 2^h. -/
def bitLen (n : Nat) : Nat := bitLenAux n n

/-- Nearest integer to num/den, ties to even — the IEEE-754 rounding
used by Python's float division, expressed on a scaled integer. -/
def rndNE (num den : Nat) : Nat :=
  let q := num / den
  let r := num % den
  if 2 * r < den then q
  else if den < 2 * r then q + 1
  else if q % 2 = 0 then q else q + 1

/-- `int(b/1000)` exactly as Python computes it for a non-negative
integer b: the quotient b/1000 is rounded to binary64 and the rounded
value truncated.  The binade of b/1000 is located through the bit length
of floor(b·2^60/1000) — exact for every b ≥ 1, since after scaling by
2^60 the binade boundaries are integers and the floor cannot cross one —
giving floor(log2(b/1000)) = bitLen(...) - 61; the quotient is then
rounded to the nearest multiple of 2^(t-52) (ties to even), and the
result floored.  `none` models the OverflowError Python raises when the
rounded quotient reaches 2^1024 (caught by the function's outer
exception handler). -/
def pyIntFloatDiv1000 (b : Nat) : Option Nat :=
  if b = 0 then some 0
  else
    let L := bitLen (b * 2 ^ 60 / 1000)
    if 113 ≤ L then
      let e := L - 113
      let m := rndNE b (1000 * 2 ^ e)
      if 2 ^ 1024 ≤ m * 2 ^ e then none else some (m * 2 ^ e)
    else
      let f := 113 - L
      some (rndNE (b * 2 ^ f) 1000 / 2 ^ f)

/-- `int(int(s)/1000)` for a possibly negative parsed value: Python's
float division and int() truncation are both symmetric in sign. -/
def pyIntDiv1000F (b : Int) : Option Int :=
  if 0 ≤ b then (pyIntFloatDiv1000 b.toNat).map (fun n => (n : Int))
  else (pyIntFloatDiv1000 (-b).toNat).map (fun n => -(n : Int))

/-! ### MediaProbe: `get_audio_info` (lines 236-283) -/

/-- One element of the ffprobe `streams` array, restricted to the fields
the source reads.  `none` models an absent key (`dict.get` returns None). -/
structure StreamInfo where
  codec_type : Option String
  bit_rate : Option String
deriving DecidableEq

/-- The ffprobe `format` object restricted to the field the source reads;
`none` models an absent `format_name` key (raises KeyError). -/
structure FormatInfo where
  format_name : Option String
deriving DecidableEq

/-- Parsed shape of the ffprobe JSON output. `format = none` models an
absent `format` key (`info['format']` raises KeyError, caught by the outer
handler). `streams` models `info.get('streams', [])`. -/
structure ProbeJson where
  format : Option FormatInfo
  streams : List StreamInfo
deriving DecidableEq

/-- Result of `json.loads(result.stdout)`: either a JSONDecodeError or a
parsed document.  The JSON text itself is external; we model the parser's
outcome. -/
inductive ParseResult where
  | jsonError
  | ok (j : ProbeJson)
deriving DecidableEq

/-- Model of the `subprocess.run(['ffprobe', ...])` call as observed by
`get_audio_info`: the tool may be missing (FileNotFoundError), time out
(subprocess.TimeoutExpired), or run to completion with a return code,
a possibly-empty stdout, and a parse outcome for that stdout. -/
inductive ProbeExec where
  | toolNotFound
  | timeoutExpired
  | ran (returncode : Int) (stdoutNonempty : Bool) (parsed : ParseResult)
deriving DecidableEq

/-- The `for stream in info.get('streams', [])` loop: the first stream
whose `codec_type` is "audio" is the one consulted; others are passed over. -/
def findAudioStream : List StreamInfo → Option StreamInfo
  | [] => none
  | s :: rest => if s.codec_type = some "audio" then some s else findAudioStream rest

/-- Body of the audio-stream branch (lines 265-273).  `format_name` is read
with plain indexing, so an absent `format` object or `format_name` key
raises and lands in the outer handler, giving (none, none).  A present
`bit_rate` is parsed with `int(...)`; a malformed value raises (ValueError,
caught outside) and an empty string is falsy and returned unchanged.
`int(int(s)/1000)` is `pyIntDiv1000F`: binary64 division then truncation;
its OverflowError (`none`) also lands in the outer handler. -/
def parseAudioStream (j : ProbeJson) (s : StreamInfo) : Option String × Option String :=
  match j.format with
  | none => (none, none)
  | some fo =>
    match fo.format_name with
    | none => (none, none)
    | some fn =>
      let format_name := (splitChar fn ',').headD ""
      match s.bit_rate with
      | none => (some format_name, none)
      | some bs =>
        if bs = "" then (some format_name, some bs)
        else
          match pyToInt? bs with
          | none => (none, none)
          | some b =>
            match pyIntDiv1000F b with
            | none => (none, none)
            | some v => (some format_name, some (toString v ++ "k"))

/-- `get_audio_info` (lines 236-283) over the modelled subprocess result:
returns a (format, bitrate) pair of options, and (none, none) on every
failure path. -/
def get_audio_info (x : ProbeExec) : Option String × Option String :=
  match x with
  | ProbeExec.toolNotFound => (none, none)
  | ProbeExec.timeoutExpired => (none, none)
  | ProbeExec.ran rc stdoutNonempty parsed =>
    if rc = 0 ∧ stdoutNonempty = true then
      match parsed with
      | ParseResult.jsonError => (none, none)
      | ParseResult.ok j =>
        match findAudioStream j.streams with
        | none => (none, none)
        | some s => parseAudioStream j s
    else (none, none)

/-! ### Path helpers -/

/-- Index of the last occurrence of a character in a character list. -/
def lastIdxOfAux (c : Char) : List Char → Option Nat
  | [] => none
  | x :: xs =>
    match lastIdxOfAux c xs with
    | some k => some (k + 1)
    | none => if x = c then some 0 else none

/-- `os.path.splitext` on a basename (no separators): split at the last
dot, except that a basename consisting only of leading dots before that
dot has no extension. -/
def pysplitext (s : String) : String × String :=
  let cs := s.data
  match lastIdxOfAux '.' cs with
  | none => (s, "")
  | some d =>
    if (cs.take d).all (fun ch => ch == '.') then (s, "")
    else (String.mk (cs.take d), String.mk (cs.drop d))

/-- `os.path.splitext(file)[1][1:].lower()` (line 384). -/
def extOf (file : String) : String :=
  pyLower ((pysplitext file).2.drop 1)

/-- `os.path.join` for the non-empty relative components produced by
`os.walk`. -/
def joinP (a b : String) : String := a ++ "/" ++ b

/-- `os.path.relpath(root, input_path)` for the roots produced by
`os.walk(input_path)`: such a root is either `input_path` itself or
extends it below a path separator; other argument shapes do not occur. -/
def relpath (root start : String) : String :=
  if root = start then "."
  else if root.take (start.length + 1) = start ++ "/" then root.drop (start.length + 1)
  else root

/-- Split a path at its last separator into (dirname, basename); used to
rebuild walk records from stored paths. -/
def splitLastSlash (p : String) : String × String :=
  match lastIdxOfAux '/' p.data with
  | none => ("", p)
  | some d => (String.mk (p.data.take d), String.mk (p.data.drop (d + 1)))

/-- Walk records (root, filename) for a list of existing file paths. -/
def walkOf (fs : List String) : List (String × String) :=
  fs.map splitLastSlash

/-! ### ConversionEngine: `process_files` (lines 340-490) -/

/-- Outcome of the `subprocess.run(["ffmpeg", ...])` call: zero exit,
non-zero exit, or a raised exception — the source treats the last two
identically (lines 445-453). -/
inductive EncodeResult where
  | success
  | nonZeroExit
  | raised
deriving DecidableEq

/-- The external world the engine consults, one oracle per tool:
`probe` abstracts `get_audio_info` applied to the file's ffprobe run,
`encode` the ffmpeg exit status, `copyOk` whether `shutil.copy` succeeds,
and `timestamp` the `datetime.now().isoformat()` value. -/
structure Env where
  probe : String → Option String × Option String
  encode : String → EncodeResult
  copyOk : String → Bool
  timestamp : String

/-- External calls the engine performs, recorded as a trace: directory
creation (line 382), an ffprobe invocation (line 397), an ffmpeg
invocation with its source and output path (line 422), and a sidecar copy
(line 461). -/
inductive Event where
  | mkdirCall (dir : String)
  | probeCall (path : String)
  | encodeCall (src dst : String)
  | copyCall (src dstDir : String)
deriving DecidableEq

/-- Source path an event operates on: the probed path, the encoder's
input, the copied file; directory creation has no source file. -/
def evSrc : Event → Option String
  | Event.mkdirCall _ => none
  | Event.probeCall p => some p
  | Event.encodeCall s _ => some s
  | Event.copyCall s _ => some s

/-- Mutable state of one `process_files` run: the per-extension counts,
the four outcome lists, the `new_conversions` dict and the filesystem
(list of existing file paths). -/
structure RunState where
  file_count : List (String × Nat)
  converted_files : List String
  skipped_files : List String
  failed_files : List String
  correct_files : List String
  new_conversions : Ledger
  fs : List String
deriving DecidableEq

/-- Initial run state over a given filesystem. -/
def initState (fs0 : List String) : RunState :=
  { file_count := [], converted_files := [], skipped_files := [],
    failed_files := [], correct_files := [], new_conversions := [], fs := fs0 }

/-- The request `process_files` is run with. -/
structure RunRequest where
  inputPath : String
  outputPath : String
  musicFormat : String
  bitrate : String
  replaceMode : Bool
deriving DecidableEq

/-- `increment_count` (lines 370-373): Python dict insertion order. -/
def increment_count : List (String × Nat) → String → List (String × Nat)
  | [], e => [(e, 1)]
  | (k, n) :: rest, e =>
    if k = e then (k, n + 1) :: rest else (k, n) :: increment_count rest e

/-- File creation: a set-like insert into the path list. -/
def fsInsert (fs : List String) (p : String) : List String :=
  if fs.contains p then fs else fs ++ [p]

/-- `os.remove` / the removal half of `os.rename`. -/
def fsErase (fs : List String) (p : String) : List String :=
  fs.filter (fun q => !(q == p))

/-- `target_dir` (line 379). -/
def targetDir (req : RunRequest) (root : String) : String :=
  if req.replaceMode then root else joinP req.outputPath (relpath root req.inputPath)

/-- The copy-mode output path for an audio file (line 415). -/
def outputFileCopy (req : RunRequest) (f : String × String) : String :=
  joinP (targetDir req f.1) ((pysplitext f.2).1 ++ "." ++ req.musicFormat)

/-- Absolute path of a walk record. -/
def pathOf (f : String × String) : String := joinP f.1 f.2

/-- Body of the `for file in files` loop of `process_files`
(lines 376-465), over one (root, filename) record.  Returns the successor
state and the external calls made during the iteration.  Branch for
branch: the `os.makedirs(target_dir, exist_ok=True)` of line 382 runs for
every file in copy mode before the extension dispatch; the lock-file check
precedes the probe; copy mode short-circuits on an existing target; a
failed encode only appends to `failed_files`; `increment_count` is skipped
by the `continue` of the exists-skip and failure paths. -/
def stepFile (req : RunRequest) (env : Env) (info : Ledger) (st : RunState)
    (f : String × String) : RunState × List Event :=
  let root := f.1
  let file := f.2
  let file_path := joinP root file
  let target_dir := targetDir req root
  let mkEv : List Event := if req.replaceMode then [] else [Event.mkdirCall target_dir]
  let ext := extOf file
  if audioExts.contains ext then
    if ledgerHit info req.musicFormat req.bitrate file_path then
      ({ st with skipped_files := st.skipped_files ++ [file_path],
                 file_count := increment_count st.file_count ext }, mkEv)
    else
      let pr := env.probe file_path
      let evs := mkEv ++ [Event.probeCall file_path]
      if pr.1 = some req.musicFormat ∧ pr.2 = some req.bitrate then
        ({ st with correct_files := st.correct_files ++ [file_path],
                   new_conversions := insertL st.new_conversions file_path
                     ⟨req.musicFormat, req.bitrate, env.timestamp, Status.correct_format⟩,
                   file_count := increment_count st.file_count ext }, evs)
      else
        let stem := (pysplitext file).1
        if req.replaceMode then
          let output_file := joinP target_dir (stem ++ "_temp." ++ req.musicFormat)
          let final_path := joinP target_dir (stem ++ "." ++ req.musicFormat)
          let evs2 := evs ++ [Event.encodeCall file_path output_file]
          match env.encode file_path with
          | EncodeResult.success =>
            ({ st with
                 fs := fsInsert (fsErase (fsErase (fsInsert st.fs output_file) file_path)
                   output_file) final_path,
                 new_conversions := insertL st.new_conversions file_path
                   ⟨req.musicFormat, req.bitrate, env.timestamp, Status.converted⟩,
                 converted_files := st.converted_files ++ [file_path],
                 file_count := increment_count st.file_count ext }, evs2)
          | _ => ({ st with failed_files := st.failed_files ++ [file_path] }, evs2)
        else
          let output_file := joinP target_dir (stem ++ "." ++ req.musicFormat)
          if st.fs.contains output_file then
            ({ st with skipped_files := st.skipped_files ++ [file_path] }, evs)
          else
            let evs2 := evs ++ [Event.encodeCall file_path output_file]
            match env.encode file_path with
            | EncodeResult.success =>
              ({ st with
                   fs := fsInsert st.fs output_file,
                   new_conversions := insertL st.new_conversions file_path
                     ⟨req.musicFormat, req.bitrate, env.timestamp, Status.converted⟩,
                   converted_files := st.converted_files ++ [file_path],
                   file_count := increment_count st.file_count ext }, evs2)
            | _ => ({ st with failed_files := st.failed_files ++ [file_path] }, evs2)
  else if sidecarExts.contains ext then
    if req.replaceMode then (st, mkEv)
    else
      let evs := mkEv ++ [Event.copyCall file_path target_dir]
      if env.copyOk file_path then
        ({ st with fs := fsInsert st.fs (joinP target_dir file),
                   file_count := increment_count st.file_count ext }, evs)
      else (st, evs)
  else (st, mkEv)

/-- The directory walk of `process_files`: fold `stepFile` over the
discovered (root, filename) records, concatenating the event traces. -/
def processFilesAux (req : RunRequest) (env : Env) (info : Ledger) :
    List (String × String) → RunState → RunState × List Event
  | [], st => (st, [])
  | f :: rest, st =>
    let r := stepFile req env info st f
    let r2 := processFilesAux req env info rest r.1
    (r2.1, r.2 ++ r2.2)

/-- `process_files` (lines 340-490) from a fresh run state: `info` is the
lock file read at run start, `fs0` the filesystem at run start. -/
def process_files (req : RunRequest) (env : Env) (walk : List (String × String))
    (info : Ledger) (fs0 : List String) : RunState × List Event :=
  processFilesAux req env info walk (initState fs0)

/-- Result of one full run: final engine state, event trace, and the
ledger as persisted at run end (lines 467-469: `update_lock_file` is
called only when `new_conversions` is non-empty). -/
structure RunOutcome where
  state : RunState
  events : List Event
  ledgerAfter : Ledger
deriving DecidableEq

/-- One full run of the engine including the final ledger persistence. -/
def runOnce (req : RunRequest) (env : Env) (walk : List (String × String))
    (info : Ledger) (fs0 : List String) : RunOutcome :=
  let r := process_files req env walk info fs0
  { state := r.1, events := r.2,
    ledgerAfter :=
      if r.1.new_conversions = [] then info
      else mergeLedger info r.1.new_conversions }

/-! ### ConversionLedger persistence: `update_lock_file` (lines 321-338) -/

/-- Filesystem write operations performed while persisting the ledger.
`openTruncate` is `open(path, 'w')` (truncates the file in place),
`writeSnapshot` is the `json.dump` of a full ledger snapshot, and
`renameFile` an atomic rename (the source never performs one while
persisting; the constructor exists so the specified discipline is
statable). -/
inductive FsWriteOp where
  | openTruncate (path : String)
  | writeSnapshot (path : String) (content : Ledger)
  | renameFile (src dst : String)
deriving DecidableEq

/-- Does a write operation touch (create, truncate or replace) a path? -/
def opTouches : FsWriteOp → String → Prop
  | FsWriteOp.openTruncate p, t => p = t
  | FsWriteOp.writeSnapshot p _, t => p = t
  | FsWriteOp.renameFile _ d, t => d = t

/-- `update_lock_file(lock_file, converted_files_info)` (lines 321-338):
reads the ledger currently on disk (`onDisk`), merges the new entries over
it (`lock_data.update(...)`), then opens the lock file with mode 'w' and
dumps the merged snapshot.  Returns the write-operation trace and the
merged ledger. -/
def update_lock_file (lock_file : String) (onDisk newInfo : Ledger) :
    List FsWriteOp × Ledger :=
  let merged := mergeLedger onDisk newInfo
  ([FsWriteOp.openTruncate lock_file, FsWriteOp.writeSnapshot lock_file merged], merged)

/-- Modelled from the spec: the write discipline §4.2 requires of
`merge_and_persist` — "writers must write to a temporary location and
atomically rename over the target": every operation before the last one
leaves the target untouched, and the last operation is an atomic rename
of a distinct temporary path onto the target. -/
def writesViaTempThenRename (trace : List FsWriteOp) (target : String) : Prop :=
  ∃ tmp, tmp ≠ target ∧
    (∀ op ∈ trace.dropLast, ¬ opTouches op target) ∧
    trace.getLast? = some (FsWriteOp.renameFile tmp target)

/-! ### Validation: `validate_paths_and_parameters` (lines 169-201) -/

/-- Outcome of `validate_paths_and_parameters`: either the checks pass or
the process exits with code 1 (every `sys.exit(1)` in the function).  In
both cases `createdDirs` lists the directories the call created on disk
before returning (the `os.makedirs(output_path)` of line 188). -/
inductive ValidationOutcome where
  | ok (createdDirs : List String)
  | exitCode1 (createdDirs : List String)
deriving DecidableEq

/-- `validate_paths_and_parameters` (lines 169-201) over an abstract set
of existing directories; `mkdirOk` tells whether `os.makedirs` on a
missing output path succeeds.  Note the order of the source: the output
directory is created (line 188) before the format (line 194) and bitrate
(line 199) checks run. -/
def validate_paths_and_parameters (existingDirs : List String)
    (input_path output_path music_format bitrate : String) (mkdirOk : Bool) :
    ValidationOutcome :=
  if input_path ∈ existingDirs then
    if output_path ∈ existingDirs then
      if music_format ∈ validFormats then
        if bitrate ∈ validBitrates then ValidationOutcome.ok []
        else ValidationOutcome.exitCode1 []
      else ValidationOutcome.exitCode1 []
    else
      if mkdirOk then
        if music_format ∈ validFormats then
          if bitrate ∈ validBitrates then ValidationOutcome.ok [output_path]
          else ValidationOutcome.exitCode1 [output_path]
        else ValidationOutcome.exitCode1 [output_path]
      else ValidationOutcome.exitCode1 []
  else ValidationOutcome.exitCode1 []

/-- The fragment of `main` (lines 492-520) the validation claims are
about: run validation, and only when it passes run the engine.  Returns
the engine outcome (none on exit code 1) and the directories created by
validation. -/
def mainAfterValidation (existingDirs : List String)
    (input_path output_path music_format bitrate : String) (replaceMode : Bool)
    (mkdirOk : Bool) (env : Env) (walk : List (String × String))
    (info : Ledger) (fs0 : List String) : Option RunOutcome × List String :=
  match validate_paths_and_parameters existingDirs input_path output_path
      music_format bitrate mkdirOk with
  | ValidationOutcome.exitCode1 ds => (none, ds)
  | ValidationOutcome.ok ds =>
    (some (runOnce ⟨input_path, output_path, music_format, bitrate, replaceMode⟩
      env walk info fs0), ds)

/-! ### Derived predicates and measures used by the theorems -/

/-- The probe-equality check of line 399 as a proposition about the
environment. -/
def probeMatches (env : Env) (req : RunRequest) (p : String) : Prop :=
  (env.probe p).1 = some req.musicFormat ∧ (env.probe p).2 = some req.bitrate

/-- A ledger entry whose format and bitrate equal the requested target. -/
def entryMatches (req : RunRequest) (e : LedgerEntry) : Prop :=
  e.format = req.musicFormat ∧ e.bitrate = req.bitrate

/-- The ledger has an authoritative entry for the path: present, format
and bitrate both equal to the request. -/
def ledgerMatches (L : Ledger) (req : RunRequest) (p : String) : Prop :=
  ∃ e, lookupL L p = some e ∧ entryMatches req e

/-- Every entry of a ledger fragment matches the request (holds of
`new_conversions` by construction: both writing sites store the requested
format and bitrate). -/
def AllMatch (req : RunRequest) (nc : Ledger) : Prop :=
  ∀ kv ∈ nc, entryMatches req kv.2

/-- The path has some entry in the ledger fragment. -/
def ncHas (nc : Ledger) (p : String) : Prop :=
  lookupL nc p ≠ none

/-- Total occurrences of a source path across the four outcome lists. -/
def occTotal (p : String) (st : RunState) : Nat :=
  st.converted_files.count p + st.skipped_files.count p +
    st.failed_files.count p + st.correct_files.count p

/-- Number of walk records with the given path and an audio extension. -/
def countAudioAt (p : String) (walk : List (String × String)) : Nat :=
  walk.countP (fun f => pathOf f == p && audioExts.contains (extOf f.2))

/-- `sum(file_count.values())` — the "Total files processed" figure of the
run summary (line 473). -/
def totalProcessed (st : RunState) : Nat :=
  (st.file_count.map Prod.snd).sum

/-! ### Concrete scenario data for counterexamples and witnesses -/

/-- Replace-mode request used by the idempotence counterexample. -/
def cexReq : RunRequest := ⟨"in", "in", "mp3", "192k", true⟩

/-- Environment for the idempotence counterexample: the original file
probes as flac/320k, the file produced by the first run probes as an mp3
whose stream bitrate (128k) differs from the requested 192k, and every
encode succeeds. -/
def cexEnv : Env :=
  { probe := fun p =>
      if p = "in/a.flac" then (some "flac", some "320k")
      else if p = "in/a.mp3" then (some "mp3", some "128k")
      else (none, none),
    encode := fun _ => EncodeResult.success,
    copyOk := fun _ => true,
    timestamp := "t0" }

/-- First run of the idempotence counterexample: one flac file, empty
ledger. -/
def cexRun1 : RunOutcome :=
  runOnce cexReq cexEnv [("in", "a.flac")] [] ["in/a.flac"]

/-- Second run of the idempotence counterexample: identical request over
the tree exactly as the first run left it (nothing changed between the
runs), with the persisted ledger. -/
def cexRun2 : RunState × List Event :=
  process_files cexReq cexEnv (walkOf cexRun1.state.fs) cexRun1.ledgerAfter cexRun1.state.fs

/-- Copy-mode request shared by several witnesses. -/
def wReq : RunRequest := ⟨"in", "out", "mp3", "192k", false⟩

/-- Environment shared by several witnesses: the flac file probes as
flac/320k and encodes successfully. -/
def wEnv : Env :=
  { probe := fun p =>
      if p = "in/a.flac" then (some "flac", some "320k") else (none, none),
    encode := fun _ => EncodeResult.success,
    copyOk := fun _ => true,
    timestamp := "t1" }

/-- Environment whose encoder always fails with a non-zero exit. -/
def wEnvFail : Env :=
  { probe := fun p =>
      if p = "in/a.flac" then (some "flac", some "320k") else (none, none),
    encode := fun _ => EncodeResult.nonZeroExit,
    copyOk := fun _ => true,
    timestamp := "t2" }

/-- Environment whose probe fails (returns (none, none)) on every path. -/
def wEnvProbeFail : Env :=
  { probe := fun _ => (none, none),
    encode := fun _ => EncodeResult.success,
    copyOk := fun _ => true,
    timestamp := "t3" }

/-- A ledger holding an authoritative mp3/192k entry for `in/a.mp3`. -/
def wInfoHit : Ledger :=
  [("in/a.mp3", ⟨"mp3", "192k", "t-old", Status.converted⟩)]

/-! ## Lemmas -/

theorem contains_iff_mem {l : List String} {x : String} : l.contains x = true ↔ x ∈ l := by
  simp

theorem lookupL_insertL (l : Ledger) (k : String) (v : LedgerEntry) (p : String) :
    lookupL (insertL l k v) p = if k = p then some v else lookupL l p := by
  induction l with
  | nil => simp [insertL, lookupL]
  | cons kv rest ih =>
    obtain ⟨k0, v0⟩ := kv
    simp only [insertL]
    by_cases h0 : k0 = k
    · rw [if_pos h0]
      subst h0
      by_cases hp : k0 = p <;> simp [lookupL, hp]
    · rw [if_neg h0]
      by_cases h1 : k0 = p
      · subst h1
        have hkp : ¬ k = k0 := fun h => h0 h.symm
        simp [lookupL, ih, hkp]
      · simp [lookupL, h1, ih]

theorem mem_insertL {l : Ledger} {k : String} {v : LedgerEntry} {kv : String × LedgerEntry}
    (h : kv ∈ insertL l k v) : kv ∈ l ∨ kv = (k, v) := by
  induction l with
  | nil =>
    simp only [insertL, List.mem_singleton] at h
    exact Or.inr h
  | cons kv0 rest ih =>
    obtain ⟨k0, v0⟩ := kv0
    simp only [insertL] at h
    by_cases h0 : k0 = k
    · rw [if_pos h0] at h
      rcases List.mem_cons.mp h with h1 | h1
      · exact Or.inr h1
      · exact Or.inl (List.mem_cons_of_mem _ h1)
    · rw [if_neg h0] at h
      rcases List.mem_cons.mp h with h1 | h1
      · exact Or.inl (List.mem_cons.mpr (Or.inl h1))
      · rcases ih h1 with h2 | h2
        · exact Or.inl (List.mem_cons_of_mem _ h2)
        · exact Or.inr h2

theorem mergeLedger_lookup (new old : Ledger) (p : String) :
    (lookupL (mergeLedger old new) p = lookupL old p ∧ lookupL new p = none) ∨
      (∃ e, lookupL (mergeLedger old new) p = some e ∧ (p, e) ∈ new) := by
  induction new generalizing old with
  | nil => exact Or.inl ⟨rfl, rfl⟩
  | cons kv rest ih =>
    obtain ⟨k, v⟩ := kv
    have hstep : mergeLedger old ((k, v) :: rest) = mergeLedger (insertL old k v) rest := rfl
    rw [hstep]
    rcases ih (insertL old k v) with ⟨h1, h2⟩ | ⟨e, h1, h2⟩
    · rw [lookupL_insertL] at h1
      by_cases hk : k = p
      · subst hk
        rw [if_pos rfl] at h1
        exact Or.inr ⟨v, h1, List.mem_cons_self _ _⟩
      · rw [if_neg hk] at h1
        refine Or.inl ⟨h1, ?_⟩
        simp only [lookupL, if_neg hk]
        exact h2
    · exact Or.inr ⟨e, h1, List.mem_cons_of_mem _ h2⟩

theorem ledgerHit_iff {L : Ledger} {fmt br p : String} :
    ledgerHit L fmt br p = true ↔
      ∃ e, lookupL L p = some e ∧ e.format = fmt ∧ e.bitrate = br := by
  unfold ledgerHit
  cases h : lookupL L p with
  | none => simp
  | some e =>
    simp only [Bool.and_eq_true, beq_iff_eq]
    constructor
    · rintro ⟨h1, h2⟩
      exact ⟨e, rfl, h1, h2⟩
    · rintro ⟨e', he', h1, h2⟩
      cases he'
      exact ⟨h1, h2⟩

theorem mergeLedger_matches {req : RunRequest} {old nc : Ledger} {p : String}
    (hall : AllMatch req nc)
    (h : ledgerMatches old req p ∨ ncHas nc p) :
    ledgerMatches (mergeLedger old nc) req p := by
  rcases mergeLedger_lookup nc old p with ⟨h1, h2⟩ | ⟨e, h1, h2⟩
  · rcases h with ⟨e, he, hm⟩ | hnc
    · exact ⟨e, h1.trans he, hm⟩
    · exact absurd h2 hnc
  · exact ⟨e, h1, hall (p, e) h2⟩

theorem sum_increment_count (fc : List (String × Nat)) (e : String) :
    ((increment_count fc e).map Prod.snd).sum = (fc.map Prod.snd).sum + 1 := by
  induction fc with
  | nil => simp [increment_count]
  | cons kv rest ih =>
    obtain ⟨k, n⟩ := kv
    by_cases h : k = e
    · subst h
      simp [increment_count]
      omega
    · simp [increment_count, if_neg h, ih]
      omega

theorem fsInsert_mem {fs : List String} {p x : String} (h : x ∈ fs) : x ∈ fsInsert fs p := by
  unfold fsInsert
  split
  · exact h
  · exact List.mem_append_left _ h

/-! ### Correctness of the binary64 division model below 2^53 -/

theorem bitLenAux_zero (fuel : Nat) : bitLenAux fuel 0 = 0 := by
  cases fuel with
  | zero => rfl
  | succ fuel => simp [bitLenAux]

theorem bitLenAux_lower : ∀ (fuel n : Nat), 1 ≤ n → n < 2 ^ fuel →
    2 ^ (bitLenAux fuel n - 1) ≤ n := by
  intro fuel
  induction fuel with
  | zero =>
    intro n h1 h2
    have h3 : (2 : Nat) ^ 0 = 1 := rfl
    omega
  | succ fuel ih =>
    intro n h1 h2
    have hstep : bitLenAux (fuel + 1) n = bitLenAux fuel (n / 2) + 1 := by
      simp only [bitLenAux]
      rw [if_neg (by omega)]
    rw [hstep]
    by_cases h2n : n = 1
    · subst h2n
      rw [show (1 : Nat) / 2 = 0 from rfl, bitLenAux_zero]
      norm_num
    · have hn2 : 1 ≤ n / 2 := by omega
      have hlt : n / 2 < 2 ^ fuel := by
        have hp : (2 : Nat) ^ (fuel + 1) = 2 ^ fuel * 2 := pow_succ 2 fuel
        omega
    -- continue
      have hih := ih (n / 2) hn2 hlt
      rcases Nat.eq_zero_or_pos (bitLenAux fuel (n / 2)) with hL | hL
      · rw [hL]
        norm_num
        omega
      · have hL1 : bitLenAux fuel (n / 2) + 1 - 1 = bitLenAux fuel (n / 2) := by omega
        rw [hL1]
        have hsub : bitLenAux fuel (n / 2) - 1 + 1 = bitLenAux fuel (n / 2) := by omega
        have h2L : (2 : Nat) ^ bitLenAux fuel (n / 2) =
            2 ^ (bitLenAux fuel (n / 2) - 1) * 2 := by
          rw [← pow_succ, hsub]
        omega

theorem bitLen_lower (n : Nat) (h : 1 ≤ n) : 2 ^ (bitLen n - 1) ≤ n :=
  bitLenAux_lower n n h (Nat.lt_two_pow n)

theorem div_round_core (P NP RP q r2 m : Nat)
    (hP : 500 < P)
    (hsum : 1000 * NP + RP = 1000 * q + r2)
    (hRP : RP + P ≤ 1000 * P)
    (hr2 : r2 < 1000)
    (hmlo : q ≤ m) (hmhi : m ≤ q + 1)
    (hmup : m = q + 1 → 1000 ≤ 2 * r2) :
    NP ≤ m ∧ m < NP + P := by
  omega

theorem rndNE_div_pow (b f : Nat) (hf : 500 < 2 ^ f) :
    rndNE (b * 2 ^ f) 1000 / 2 ^ f = b / 1000 := by
  have hsum : 1000 * (b / 1000 * 2 ^ f) + b % 1000 * 2 ^ f =
      1000 * (b * 2 ^ f / 1000) + (b * 2 ^ f) % 1000 := by
    have h1 : 1000 * (b / 1000) + b % 1000 = b := Nat.div_add_mod b 1000
    have h2 : 1000 * (b * 2 ^ f / 1000) + (b * 2 ^ f) % 1000 = b * 2 ^ f :=
      Nat.div_add_mod _ 1000
    calc 1000 * (b / 1000 * 2 ^ f) + b % 1000 * 2 ^ f
        = (1000 * (b / 1000) + b % 1000) * 2 ^ f := by ring
      _ = b * 2 ^ f := by rw [h1]
      _ = 1000 * (b * 2 ^ f / 1000) + (b * 2 ^ f) % 1000 := h2.symm
  have hRP : b % 1000 * 2 ^ f + 2 ^ f ≤ 1000 * 2 ^ f := by
    have h3 : b % 1000 + 1 ≤ 1000 := Nat.mod_lt _ (by norm_num)
    calc b % 1000 * 2 ^ f + 2 ^ f = (b % 1000 + 1) * 2 ^ f := by ring
      _ ≤ 1000 * 2 ^ f := Nat.mul_le_mul_right _ h3
  have hr2 : (b * 2 ^ f) % 1000 < 1000 := Nat.mod_lt _ (by norm_num)
  have hbounds : b / 1000 * 2 ^ f ≤ rndNE (b * 2 ^ f) 1000 ∧
      rndNE (b * 2 ^ f) 1000 < b / 1000 * 2 ^ f + 2 ^ f := by
    unfold rndNE
    dsimp only
    split
    · exact div_round_core (2 ^ f) _ _ _ _ _ hf hsum hRP hr2 (le_refl _)
        (Nat.le_succ _) (by omega)
    · split
      · exact div_round_core (2 ^ f) _ _ _ _ _ hf hsum hRP hr2 (Nat.le_succ _)
          (le_refl _) (by omega)
      · split
        · exact div_round_core (2 ^ f) _ _ _ _ _ hf hsum hRP hr2 (le_refl _)
            (Nat.le_succ _) (by omega)
        · exact div_round_core (2 ^ f) _ _ _ _ _ hf hsum hRP hr2 (Nat.le_succ _)
            (le_refl _) (by omega)
  apply Nat.div_eq_of_lt_le
  · exact hbounds.1
  · calc rndNE (b * 2 ^ f) 1000 < b / 1000 * 2 ^ f + 2 ^ f := hbounds.2
      _ = (b / 1000 + 1) * 2 ^ f := by ring

theorem pyIntFloatDiv1000_eq (b : Nat) (hb : b < 2 ^ 53) :
    pyIntFloatDiv1000 b = some (b / 1000) := by
  unfold pyIntFloatDiv1000
  by_cases h0 : b = 0
  · subst h0
    rw [if_pos rfl]
  · rw [if_neg h0]
    dsimp only
    have hS1 : 1 ≤ b * 2 ^ 60 / 1000 := by
      rw [Nat.le_div_iff_mul_le (by norm_num)]
      calc 1 * 1000 ≤ 1 * 2 ^ 60 := by norm_num
        _ ≤ b * 2 ^ 60 := Nat.mul_le_mul_right _ (by omega)
    have hSlt : b * 2 ^ 60 / 1000 < 2 ^ 104 := by
      rw [Nat.div_lt_iff_lt_mul (by norm_num)]
      calc b * 2 ^ 60 < 2 ^ 53 * 2 ^ 60 :=
          mul_lt_mul_of_pos_right hb (by positivity)
        _ = 2 ^ 113 := by rw [← pow_add]
        _ ≤ 2 ^ 104 * 1000 := by norm_num
    have hL : bitLen (b * 2 ^ 60 / 1000) ≤ 104 := by
      by_contra hc
      push_neg at hc
      have hlow := bitLen_lower _ hS1
      have h2 : (2 : Nat) ^ 104 ≤ 2 ^ (bitLen (b * 2 ^ 60 / 1000) - 1) :=
        Nat.pow_le_pow_right (by norm_num) (by omega)
      omega
    rw [if_neg (by omega)]
    have hfgap : 500 < 2 ^ (113 - bitLen (b * 2 ^ 60 / 1000)) := by
      calc (500 : Nat) < 2 ^ 9 := by norm_num
        _ ≤ 2 ^ (113 - bitLen (b * 2 ^ 60 / 1000)) :=
          Nat.pow_le_pow_right (by norm_num) (by omega)
    rw [rndNE_div_pow b _ hfgap]

theorem pyIntDiv1000F_eq (b : Int) (h0 : 0 ≤ b) (h53 : b < 2 ^ 53) :
    pyIntDiv1000F b = some (b / 1000) := by
  have h53n : b.toNat < 2 ^ 53 := by
    rw [show (2 : Nat) ^ 53 = 9007199254740992 from by norm_num]
    rw [show (2 : Int) ^ 53 = 9007199254740992 from by norm_num] at h53
    omega
  unfold pyIntDiv1000F
  rw [if_pos h0, pyIntFloatDiv1000_eq b.toNat h53n]
  simp [Int.ofNat_ediv, Int.toNat_of_nonneg h0]

/-! ### Per-iteration effect lemmas about `stepFile` -/

theorem step_skipped_mono (req : RunRequest) (env : Env) (info : Ledger) (st : RunState)
    (f : String × String) :
    ∃ t, (stepFile req env info st f).1.skipped_files = st.skipped_files ++ t := by
  unfold stepFile
  dsimp only
  repeat' split
  all_goals first
    | exact ⟨_, rfl⟩
    | exact ⟨[], (List.append_nil _).symm⟩

theorem step_failed_mono (req : RunRequest) (env : Env) (info : Ledger) (st : RunState)
    (f : String × String) :
    ∃ t, (stepFile req env info st f).1.failed_files = st.failed_files ++ t := by
  unfold stepFile
  dsimp only
  repeat' split
  all_goals first
    | exact ⟨_, rfl⟩
    | exact ⟨[], (List.append_nil _).symm⟩

theorem step_converted_mono (req : RunRequest) (env : Env) (info : Ledger) (st : RunState)
    (f : String × String) :
    ∃ t, (stepFile req env info st f).1.converted_files = st.converted_files ++ t := by
  unfold stepFile
  dsimp only
  repeat' split
  all_goals first
    | exact ⟨_, rfl⟩
    | exact ⟨[], (List.append_nil _).symm⟩

theorem step_correct_mono (req : RunRequest) (env : Env) (info : Ledger) (st : RunState)
    (f : String × String) :
    ∃ t, (stepFile req env info st f).1.correct_files = st.correct_files ++ t := by
  unfold stepFile
  dsimp only
  repeat' split
  all_goals first
    | exact ⟨_, rfl⟩
    | exact ⟨[], (List.append_nil _).symm⟩

theorem step_fs_mono (req : RunRequest) (env : Env) (info : Ledger) (st : RunState)
    (f : String × String) (hrep : req.replaceMode = false) {x : String} (hx : x ∈ st.fs) :
    x ∈ (stepFile req env info st f).1.fs := by
  unfold stepFile
  dsimp only
  simp only [hrep]
  repeat' split
  all_goals first
    | exact hx
    | exact fsInsert_mem hx
    | simp_all

theorem step_ncHas_mono (req : RunRequest) (env : Env) (info : Ledger) (st : RunState)
    (f : String × String) {p : String} (hp : ncHas st.new_conversions p) :
    ncHas (stepFile req env info st f).1.new_conversions p := by
  unfold stepFile
  dsimp only
  repeat' split
  all_goals
    first
      | exact hp
      | · show ncHas (insertL st.new_conversions _ _) p
          unfold ncHas at hp ⊢
          rw [lookupL_insertL]
          split
          · simp
          · exact hp

theorem step_allMatch (req : RunRequest) (env : Env) (info : Ledger) (st : RunState)
    (f : String × String) (h : AllMatch req st.new_conversions) :
    AllMatch req (stepFile req env info st f).1.new_conversions := by
  unfold stepFile
  dsimp only
  repeat' split
  all_goals
    first
      | exact h
      | · intro kv hkv
          rcases mem_insertL hkv with h1 | h1
          · exact h kv h1
          · subst h1
            exact ⟨rfl, rfl⟩

/-! ### Run-level monotonicity -/

theorem aux_skipped_mono (req : RunRequest) (env : Env) (info : Ledger) :
    ∀ (walk : List (String × String)) (st : RunState),
      ∃ t, (processFilesAux req env info walk st).1.skipped_files = st.skipped_files ++ t := by
  intro walk
  induction walk with
  | nil => exact fun st => ⟨[], (List.append_nil _).symm⟩
  | cons f rest ih =>
    intro st
    obtain ⟨t1, h1⟩ := step_skipped_mono req env info st f
    obtain ⟨t2, h2⟩ := ih (stepFile req env info st f).1
    refine ⟨t1 ++ t2, ?_⟩
    dsimp only [processFilesAux]
    rw [h2, h1, List.append_assoc]

theorem aux_failed_mono (req : RunRequest) (env : Env) (info : Ledger) :
    ∀ (walk : List (String × String)) (st : RunState),
      ∃ t, (processFilesAux req env info walk st).1.failed_files = st.failed_files ++ t := by
  intro walk
  induction walk with
  | nil => exact fun st => ⟨[], (List.append_nil _).symm⟩
  | cons f rest ih =>
    intro st
    obtain ⟨t1, h1⟩ := step_failed_mono req env info st f
    obtain ⟨t2, h2⟩ := ih (stepFile req env info st f).1
    refine ⟨t1 ++ t2, ?_⟩
    dsimp only [processFilesAux]
    rw [h2, h1, List.append_assoc]

theorem aux_fs_mono (req : RunRequest) (env : Env) (info : Ledger)
    (hrep : req.replaceMode = false) :
    ∀ (walk : List (String × String)) (st : RunState) {x : String},
      x ∈ st.fs → x ∈ (processFilesAux req env info walk st).1.fs := by
  intro walk
  induction walk with
  | nil => exact fun st _ hx => hx
  | cons f rest ih =>
    intro st x hx
    dsimp only [processFilesAux]
    exact ih _ (step_fs_mono req env info st f hrep hx)

theorem aux_ncHas_mono (req : RunRequest) (env : Env) (info : Ledger) :
    ∀ (walk : List (String × String)) (st : RunState) {p : String},
      ncHas st.new_conversions p →
      ncHas (processFilesAux req env info walk st).1.new_conversions p := by
  intro walk
  induction walk with
  | nil => exact fun st _ hp => hp
  | cons f rest ih =>
    intro st p hp
    dsimp only [processFilesAux]
    exact ih _ (step_ncHas_mono req env info st f hp)

theorem aux_allMatch (req : RunRequest) (env : Env) (info : Ledger) :
    ∀ (walk : List (String × String)) (st : RunState),
      AllMatch req st.new_conversions →
      AllMatch req (processFilesAux req env info walk st).1.new_conversions := by
  intro walk
  induction walk with
  | nil => exact fun st h => h
  | cons f rest ih =>
    intro st h
    dsimp only [processFilesAux]
    exact ih _ (step_allMatch req env info st f h)

/-! ### First-run case analysis (copy mode) -/

theorem step_run1_cases (req : RunRequest) (env : Env) (info : Ledger) (st : RunState)
    (f : String × String) (hrep : req.replaceMode = false)
    (haudio : audioExts.contains (extOf f.2) = true) :
    pathOf f ∈ (stepFile req env info st f).1.failed_files ∨
      ledgerMatches info req (pathOf f) ∨
      ncHas (stepFile req env info st f).1.new_conversions (pathOf f) ∨
      (¬ probeMatches env req (pathOf f) ∧
        outputFileCopy req f ∈ (stepFile req env info st f).1.fs) := by
  unfold stepFile
  dsimp only
  rw [if_pos haudio]
  by_cases hhit : ledgerHit info req.musicFormat req.bitrate (joinP f.1 f.2) = true
  · rw [if_pos hhit]
    rcases ledgerHit_iff.mp hhit with ⟨e, he, h1, h2⟩
    exact Or.inr (Or.inl ⟨e, he, h1, h2⟩)
  · rw [if_neg hhit]
    by_cases hpm : (env.probe (joinP f.1 f.2)).1 = some req.musicFormat ∧
        (env.probe (joinP f.1 f.2)).2 = some req.bitrate
    · rw [if_pos hpm]
      refine Or.inr (Or.inr (Or.inl ?_))
      show ncHas (insertL st.new_conversions (joinP f.1 f.2) _) (pathOf f)
      unfold ncHas pathOf
      rw [lookupL_insertL, if_pos rfl]
      simp
    · rw [if_neg hpm, if_neg (show ¬ req.replaceMode = true by simp [hrep])]
      by_cases hex : st.fs.contains
          (joinP (targetDir req f.1) ((pysplitext f.2).1 ++ "." ++ req.musicFormat)) = true
      · rw [if_pos hex]
        exact Or.inr (Or.inr (Or.inr ⟨hpm, contains_iff_mem.mp hex⟩))
      · rw [if_neg hex]
        cases henc : env.encode (joinP f.1 f.2) with
        | success =>
          dsimp only
          refine Or.inr (Or.inr (Or.inl ?_))
          show ncHas (insertL st.new_conversions (joinP f.1 f.2) _) (pathOf f)
          unfold ncHas pathOf
          rw [lookupL_insertL, if_pos rfl]
          simp
        | nonZeroExit =>
          dsimp only
          exact Or.inl (by simp [pathOf])
        | raised =>
          dsimp only
          exact Or.inl (by simp [pathOf])

theorem run1_cases (req : RunRequest) (env : Env) (info : Ledger)
    (hrep : req.replaceMode = false) :
    ∀ (walk : List (String × String)) (st : RunState), ∀ f ∈ walk,
      audioExts.contains (extOf f.2) = true →
      pathOf f ∈ (processFilesAux req env info walk st).1.failed_files ∨
      ledgerMatches info req (pathOf f) ∨
      ncHas (processFilesAux req env info walk st).1.new_conversions (pathOf f) ∨
      (¬ probeMatches env req (pathOf f) ∧
        outputFileCopy req f ∈ (processFilesAux req env info walk st).1.fs) := by
  intro walk
  induction walk with
  | nil => intro st f hf; exact absurd hf (List.not_mem_nil f)
  | cons g rest ih =>
    intro st f hf haudio
    rcases List.mem_cons.mp hf with hf1 | hf1
    · subst hf1
      rcases step_run1_cases req env info st f hrep haudio with h | h | h | ⟨h1, h2⟩
      · obtain ⟨t, ht⟩ := aux_failed_mono req env info rest (stepFile req env info st f).1
        refine Or.inl ?_
        dsimp only [processFilesAux]
        rw [ht]
        exact List.mem_append_left _ h
      · exact Or.inr (Or.inl h)
      · refine Or.inr (Or.inr (Or.inl ?_))
        dsimp only [processFilesAux]
        exact aux_ncHas_mono req env info rest _ h
      · refine Or.inr (Or.inr (Or.inr ⟨h1, ?_⟩))
        dsimp only [processFilesAux]
        exact aux_fs_mono req env info hrep rest _ h2
    · dsimp only [processFilesAux]
      exact ih _ f hf1 haudio

/-! ### Second-run skip behaviour (copy mode) -/

theorem step_skips_of (req : RunRequest) (env : Env) (L : Ledger) (st : RunState)
    (g : String × String) (hrep : req.replaceMode = false)
    (haudio : audioExts.contains (extOf g.2) = true)
    (h : ledgerMatches L req (pathOf g) ∨
      (¬ probeMatches env req (pathOf g) ∧ outputFileCopy req g ∈ st.fs)) :
    (stepFile req env L st g).1.converted_files = st.converted_files ∧
    (stepFile req env L st g).1.skipped_files = st.skipped_files ++ [pathOf g] ∧
    (stepFile req env L st g).1.correct_files = st.correct_files ∧
    (stepFile req env L st g).1.failed_files = st.failed_files := by
  unfold stepFile
  dsimp only
  rw [if_pos haudio]
  by_cases hhit : ledgerHit L req.musicFormat req.bitrate (joinP g.1 g.2) = true
  · rw [if_pos hhit]
    exact ⟨rfl, rfl, rfl, rfl⟩
  · rw [if_neg hhit]
    rcases h with hm | ⟨hpm, hout⟩
    · exact absurd (ledgerHit_iff.mpr (by
        rcases hm with ⟨e, he, h1, h2⟩
        exact ⟨e, he, h1, h2⟩)) hhit
    · have hpm' : ¬ ((env.probe (joinP g.1 g.2)).1 = some req.musicFormat ∧
          (env.probe (joinP g.1 g.2)).2 = some req.bitrate) := hpm
      have hout' : st.fs.contains
          (joinP (targetDir req g.1) ((pysplitext g.2).1 ++ "." ++ req.musicFormat)) = true :=
        contains_iff_mem.mpr hout
      rw [if_neg hpm', if_neg (show ¬ req.replaceMode = true by simp [hrep]), if_pos hout']
      exact ⟨rfl, rfl, rfl, rfl⟩

theorem step_nonaudio (req : RunRequest) (env : Env) (L : Ledger) (st : RunState)
    (g : String × String) (hna : audioExts.contains (extOf g.2) = false) :
    (stepFile req env L st g).1.converted_files = st.converted_files ∧
    (stepFile req env L st g).1.skipped_files = st.skipped_files ∧
    (stepFile req env L st g).1.correct_files = st.correct_files ∧
    (stepFile req env L st g).1.failed_files = st.failed_files ∧
    (stepFile req env L st g).1.new_conversions = st.new_conversions := by
  unfold stepFile
  dsimp only
  rw [if_neg (show ¬ audioExts.contains (extOf g.2) = true by rw [hna]; simp)]
  repeat' split
  all_goals exact ⟨rfl, rfl, rfl, rfl, rfl⟩

theorem run2_skips (req : RunRequest) (env : Env) (L : Ledger)
    (hrep : req.replaceMode = false) :
    ∀ (walk : List (String × String)) (st : RunState),
      (∀ f ∈ walk, audioExts.contains (extOf f.2) = true →
        ledgerMatches L req (pathOf f) ∨
          (¬ probeMatches env req (pathOf f) ∧ outputFileCopy req f ∈ st.fs)) →
      (processFilesAux req env L walk st).1.converted_files = st.converted_files ∧
      (processFilesAux req env L walk st).1.correct_files = st.correct_files ∧
      (processFilesAux req env L walk st).1.failed_files = st.failed_files ∧
      ∀ f ∈ walk, audioExts.contains (extOf f.2) = true →
        pathOf f ∈ (processFilesAux req env L walk st).1.skipped_files := by
  intro walk
  induction walk with
  | nil =>
    intro st _
    exact ⟨rfl, rfl, rfl, fun f hf => absurd hf (List.not_mem_nil f)⟩
  | cons g rest ih =>
    intro st H
    by_cases hga : audioExts.contains (extOf g.2) = true
    · obtain ⟨hc, hs, hcor, hfail⟩ :=
        step_skips_of req env L st g hrep hga (H g (List.mem_cons_self _ _) hga)
      have Hrest : ∀ f ∈ rest, audioExts.contains (extOf f.2) = true →
          ledgerMatches L req (pathOf f) ∨
            (¬ probeMatches env req (pathOf f) ∧
              outputFileCopy req f ∈ (stepFile req env L st g).1.fs) := by
        intro f hf haf
        rcases H f (List.mem_cons_of_mem _ hf) haf with hm | ⟨h1, h2⟩
        · exact Or.inl hm
        · exact Or.inr ⟨h1, step_fs_mono req env L st g hrep h2⟩
      obtain ⟨ih1, ih2, ih3, ih4⟩ := ih (stepFile req env L st g).1 Hrest
      refine ⟨?_, ?_, ?_, ?_⟩
      · dsimp only [processFilesAux]; rw [ih1, hc]
      · dsimp only [processFilesAux]; rw [ih2, hcor]
      · dsimp only [processFilesAux]; rw [ih3, hfail]
      · intro f hf haf
        rcases List.mem_cons.mp hf with hf1 | hf1
        · subst hf1
          obtain ⟨t, ht⟩ := aux_skipped_mono req env L rest (stepFile req env L st f).1
          dsimp only [processFilesAux]
          rw [ht, hs]
          exact List.mem_append_left _ (List.mem_append_right _ (List.mem_singleton_self _))
        · dsimp only [processFilesAux]
          exact ih4 f hf1 haf
    · have hna : audioExts.contains (extOf g.2) = false := by
        cases hx : audioExts.contains (extOf g.2)
        · rfl
        · exact absurd hx hga
      obtain ⟨hc, hs, hcor, hfail, _⟩ := step_nonaudio req env L st g hna
      have Hrest : ∀ f ∈ rest, audioExts.contains (extOf f.2) = true →
          ledgerMatches L req (pathOf f) ∨
            (¬ probeMatches env req (pathOf f) ∧
              outputFileCopy req f ∈ (stepFile req env L st g).1.fs) := by
        intro f hf haf
        rcases H f (List.mem_cons_of_mem _ hf) haf with hm | ⟨h1, h2⟩
        · exact Or.inl hm
        · exact Or.inr ⟨h1, step_fs_mono req env L st g hrep h2⟩
      obtain ⟨ih1, ih2, ih3, ih4⟩ := ih (stepFile req env L st g).1 Hrest
      refine ⟨?_, ?_, ?_, ?_⟩
      · dsimp only [processFilesAux]; rw [ih1, hc]
      · dsimp only [processFilesAux]; rw [ih2, hcor]
      · dsimp only [processFilesAux]; rw [ih3, hfail]
      · intro f hf haf
        rcases List.mem_cons.mp hf with hf1 | hf1
        · subst hf1
          exact absurd haf hga
        · dsimp only [processFilesAux]
          exact ih4 f hf1 haf

theorem runOnce_ledgerAfter (req : RunRequest) (env : Env)
    (walk : List (String × String)) (info : Ledger) (fs0 : List String) :
    (runOnce req env walk info fs0).ledgerAfter =
      mergeLedger info (process_files req env walk info fs0).1.new_conversions := by
  unfold runOnce
  dsimp only
  split
  · rename_i h
    rw [h]
    rfl
  · rfl

/-! ### Scenario lemmas: exact effect of one iteration in each branch -/

theorem step_hit (req : RunRequest) (env : Env) (info : Ledger) (st : RunState)
    (f : String × String) (haudio : audioExts.contains (extOf f.2) = true)
    (hhit : ledgerHit info req.musicFormat req.bitrate (pathOf f) = true) :
    (stepFile req env info st f).1.skipped_files = st.skipped_files ++ [pathOf f] ∧
    (stepFile req env info st f).1.converted_files = st.converted_files ∧
    (stepFile req env info st f).1.failed_files = st.failed_files ∧
    (stepFile req env info st f).1.correct_files = st.correct_files ∧
    (stepFile req env info st f).1.new_conversions = st.new_conversions ∧
    (stepFile req env info st f).1.fs = st.fs ∧
    (stepFile req env info st f).1.file_count = increment_count st.file_count (extOf f.2) ∧
    (stepFile req env info st f).2 =
      (if req.replaceMode then [] else [Event.mkdirCall (targetDir req f.1)]) := by
  unfold stepFile
  dsimp only
  rw [if_pos haudio, if_pos (show ledgerHit info req.musicFormat req.bitrate
    (joinP f.1 f.2) = true from hhit)]
  exact ⟨rfl, rfl, rfl, rfl, rfl, rfl, rfl, rfl⟩

theorem step_correct (req : RunRequest) (env : Env) (info : Ledger) (st : RunState)
    (f : String × String) (haudio : audioExts.contains (extOf f.2) = true)
    (hhit : ledgerHit info req.musicFormat req.bitrate (pathOf f) = false)
    (hpm : probeMatches env req (pathOf f)) :
    (stepFile req env info st f).1.correct_files = st.correct_files ++ [pathOf f] ∧
    (stepFile req env info st f).1.converted_files = st.converted_files ∧
    (stepFile req env info st f).1.skipped_files = st.skipped_files ∧
    (stepFile req env info st f).1.failed_files = st.failed_files ∧
    (stepFile req env info st f).1.new_conversions =
      insertL st.new_conversions (pathOf f)
        ⟨req.musicFormat, req.bitrate, env.timestamp, Status.correct_format⟩ ∧
    (stepFile req env info st f).1.fs = st.fs ∧
    (stepFile req env info st f).1.file_count = increment_count st.file_count (extOf f.2) ∧
    (stepFile req env info st f).2 =
      (if req.replaceMode then [] else [Event.mkdirCall (targetDir req f.1)]) ++
        [Event.probeCall (pathOf f)] := by
  unfold stepFile
  dsimp only
  rw [if_pos haudio,
    if_neg (show ¬ ledgerHit info req.musicFormat req.bitrate (joinP f.1 f.2) = true by
      rw [show ledgerHit info req.musicFormat req.bitrate (joinP f.1 f.2) =
        ledgerHit info req.musicFormat req.bitrate (pathOf f) from rfl, hhit]; simp),
    if_pos (show (env.probe (joinP f.1 f.2)).1 = some req.musicFormat ∧
      (env.probe (joinP f.1 f.2)).2 = some req.bitrate from hpm)]
  exact ⟨rfl, rfl, rfl, rfl, rfl, rfl, rfl, rfl⟩

theorem step_exists_skip (req : RunRequest) (env : Env) (info : Ledger) (st : RunState)
    (f : String × String) (hrep : req.replaceMode = false)
    (haudio : audioExts.contains (extOf f.2) = true)
    (hhit : ledgerHit info req.musicFormat req.bitrate (pathOf f) = false)
    (hpm : ¬ probeMatches env req (pathOf f))
    (hex : st.fs.contains (outputFileCopy req f) = true) :
    (stepFile req env info st f).1.skipped_files = st.skipped_files ++ [pathOf f] ∧
    (stepFile req env info st f).1.converted_files = st.converted_files ∧
    (stepFile req env info st f).1.failed_files = st.failed_files ∧
    (stepFile req env info st f).1.correct_files = st.correct_files ∧
    (stepFile req env info st f).1.new_conversions = st.new_conversions ∧
    (stepFile req env info st f).1.fs = st.fs ∧
    (stepFile req env info st f).1.file_count = st.file_count ∧
    (stepFile req env info st f).2 =
      [Event.mkdirCall (targetDir req f.1), Event.probeCall (pathOf f)] := by
  unfold stepFile
  dsimp only
  rw [if_pos haudio,
    if_neg (show ¬ ledgerHit info req.musicFormat req.bitrate (joinP f.1 f.2) = true by
      rw [show ledgerHit info req.musicFormat req.bitrate (joinP f.1 f.2) =
        ledgerHit info req.musicFormat req.bitrate (pathOf f) from rfl, hhit]; simp),
    if_neg (show ¬ ((env.probe (joinP f.1 f.2)).1 = some req.musicFormat ∧
      (env.probe (joinP f.1 f.2)).2 = some req.bitrate) from hpm),
    if_neg (show ¬ req.replaceMode = true by simp [hrep]),
    if_pos (show st.fs.contains
      (joinP (targetDir req f.1) ((pysplitext f.2).1 ++ "." ++ req.musicFormat)) = true
      from hex),
    hrep]
  exact ⟨rfl, rfl, rfl, rfl, rfl, rfl, rfl, rfl⟩

theorem step_encode_fail_copy (req : RunRequest) (env : Env) (info : Ledger) (st : RunState)
    (f : String × String) (hrep : req.replaceMode = false)
    (haudio : audioExts.contains (extOf f.2) = true)
    (hhit : ledgerHit info req.musicFormat req.bitrate (pathOf f) = false)
    (hpm : ¬ probeMatches env req (pathOf f))
    (hex : st.fs.contains (outputFileCopy req f) = false)
    (henc : env.encode (pathOf f) ≠ EncodeResult.success) :
    (stepFile req env info st f).1.failed_files = st.failed_files ++ [pathOf f] ∧
    (stepFile req env info st f).1.converted_files = st.converted_files ∧
    (stepFile req env info st f).1.skipped_files = st.skipped_files ∧
    (stepFile req env info st f).1.correct_files = st.correct_files ∧
    (stepFile req env info st f).1.new_conversions = st.new_conversions ∧
    (stepFile req env info st f).1.fs = st.fs ∧
    (stepFile req env info st f).1.file_count = st.file_count ∧
    (stepFile req env info st f).2 =
      [Event.mkdirCall (targetDir req f.1), Event.probeCall (pathOf f),
        Event.encodeCall (pathOf f) (outputFileCopy req f)] := by
  unfold stepFile
  dsimp only
  rw [if_pos haudio,
    if_neg (show ¬ ledgerHit info req.musicFormat req.bitrate (joinP f.1 f.2) = true by
      rw [show ledgerHit info req.musicFormat req.bitrate (joinP f.1 f.2) =
        ledgerHit info req.musicFormat req.bitrate (pathOf f) from rfl, hhit]; simp),
    if_neg (show ¬ ((env.probe (joinP f.1 f.2)).1 = some req.musicFormat ∧
      (env.probe (joinP f.1 f.2)).2 = some req.bitrate) from hpm),
    if_neg (show ¬ req.replaceMode = true by simp [hrep]),
    if_neg (show ¬ st.fs.contains
      (joinP (targetDir req f.1) ((pysplitext f.2).1 ++ "." ++ req.musicFormat)) = true by
      rw [show st.fs.contains (joinP (targetDir req f.1)
        ((pysplitext f.2).1 ++ "." ++ req.musicFormat)) = st.fs.contains (outputFileCopy req f)
        from rfl, hex]; simp)]
  cases hv : env.encode (joinP f.1 f.2) with
  | success => exact absurd hv henc
  | nonZeroExit =>
    dsimp only
    rw [hrep]
    exact ⟨rfl, rfl, rfl, rfl, rfl, rfl, rfl, rfl⟩
  | raised =>
    dsimp only
    rw [hrep]
    exact ⟨rfl, rfl, rfl, rfl, rfl, rfl, rfl, rfl⟩

theorem step_encode_fail_replace (req : RunRequest) (env : Env) (info : Ledger) (st : RunState)
    (f : String × String) (hrep : req.replaceMode = true)
    (haudio : audioExts.contains (extOf f.2) = true)
    (hhit : ledgerHit info req.musicFormat req.bitrate (pathOf f) = false)
    (hpm : ¬ probeMatches env req (pathOf f))
    (henc : env.encode (pathOf f) ≠ EncodeResult.success) :
    (stepFile req env info st f).1.failed_files = st.failed_files ++ [pathOf f] ∧
    (stepFile req env info st f).1.converted_files = st.converted_files ∧
    (stepFile req env info st f).1.skipped_files = st.skipped_files ∧
    (stepFile req env info st f).1.correct_files = st.correct_files ∧
    (stepFile req env info st f).1.new_conversions = st.new_conversions ∧
    (stepFile req env info st f).1.fs = st.fs ∧
    (stepFile req env info st f).1.file_count = st.file_count ∧
    (stepFile req env info st f).2 =
      [Event.probeCall (pathOf f),
        Event.encodeCall (pathOf f)
          (joinP (targetDir req f.1) ((pysplitext f.2).1 ++ "_temp." ++ req.musicFormat))] := by
  unfold stepFile
  dsimp only
  rw [if_pos haudio,
    if_neg (show ¬ ledgerHit info req.musicFormat req.bitrate (joinP f.1 f.2) = true by
      rw [show ledgerHit info req.musicFormat req.bitrate (joinP f.1 f.2) =
        ledgerHit info req.musicFormat req.bitrate (pathOf f) from rfl, hhit]; simp),
    if_neg (show ¬ ((env.probe (joinP f.1 f.2)).1 = some req.musicFormat ∧
      (env.probe (joinP f.1 f.2)).2 = some req.bitrate) from hpm),
    if_pos (show req.replaceMode = true from hrep)]
  cases hv : env.encode (joinP f.1 f.2) with
  | success => exact absurd hv henc
  | nonZeroExit =>
    dsimp only
    rw [hrep]
    exact ⟨rfl, rfl, rfl, rfl, rfl, rfl, rfl, rfl⟩
  | raised =>
    dsimp only
    rw [hrep]
    exact ⟨rfl, rfl, rfl, rfl, rfl, rfl, rfl, rfl⟩

theorem step_encode_success_copy (req : RunRequest) (env : Env) (info : Ledger) (st : RunState)
    (f : String × String) (hrep : req.replaceMode = false)
    (haudio : audioExts.contains (extOf f.2) = true)
    (hhit : ledgerHit info req.musicFormat req.bitrate (pathOf f) = false)
    (hpm : ¬ probeMatches env req (pathOf f))
    (hex : st.fs.contains (outputFileCopy req f) = false)
    (henc : env.encode (pathOf f) = EncodeResult.success) :
    (stepFile req env info st f).1.converted_files = st.converted_files ++ [pathOf f] ∧
    (stepFile req env info st f).1.skipped_files = st.skipped_files ∧
    (stepFile req env info st f).1.failed_files = st.failed_files ∧
    (stepFile req env info st f).1.correct_files = st.correct_files ∧
    (stepFile req env info st f).1.new_conversions =
      insertL st.new_conversions (pathOf f)
        ⟨req.musicFormat, req.bitrate, env.timestamp, Status.converted⟩ ∧
    (stepFile req env info st f).1.fs = fsInsert st.fs (outputFileCopy req f) ∧
    (stepFile req env info st f).1.file_count = increment_count st.file_count (extOf f.2) ∧
    (stepFile req env info st f).2 =
      [Event.mkdirCall (targetDir req f.1), Event.probeCall (pathOf f),
        Event.encodeCall (pathOf f) (outputFileCopy req f)] := by
  unfold stepFile
  dsimp only
  rw [if_pos haudio,
    if_neg (show ¬ ledgerHit info req.musicFormat req.bitrate (joinP f.1 f.2) = true by
      rw [show ledgerHit info req.musicFormat req.bitrate (joinP f.1 f.2) =
        ledgerHit info req.musicFormat req.bitrate (pathOf f) from rfl, hhit]; simp),
    if_neg (show ¬ ((env.probe (joinP f.1 f.2)).1 = some req.musicFormat ∧
      (env.probe (joinP f.1 f.2)).2 = some req.bitrate) from hpm),
    if_neg (show ¬ req.replaceMode = true by simp [hrep]),
    if_neg (show ¬ st.fs.contains
      (joinP (targetDir req f.1) ((pysplitext f.2).1 ++ "." ++ req.musicFormat)) = true by
      rw [show st.fs.contains (joinP (targetDir req f.1)
        ((pysplitext f.2).1 ++ "." ++ req.musicFormat)) = st.fs.contains (outputFileCopy req f)
        from rfl, hex]; simp),
    show env.encode (joinP f.1 f.2) = EncodeResult.success from henc]
  dsimp only
  rw [hrep]
  exact ⟨rfl, rfl, rfl, rfl, rfl, rfl, rfl, rfl⟩

theorem step_encode_success_replace (req : RunRequest) (env : Env) (info : Ledger)
    (st : RunState) (f : String × String) (hrep : req.replaceMode = true)
    (haudio : audioExts.contains (extOf f.2) = true)
    (hhit : ledgerHit info req.musicFormat req.bitrate (pathOf f) = false)
    (hpm : ¬ probeMatches env req (pathOf f))
    (henc : env.encode (pathOf f) = EncodeResult.success) :
    (stepFile req env info st f).1.converted_files = st.converted_files ++ [pathOf f] ∧
    (stepFile req env info st f).1.skipped_files = st.skipped_files ∧
    (stepFile req env info st f).1.failed_files = st.failed_files ∧
    (stepFile req env info st f).1.correct_files = st.correct_files ∧
    (stepFile req env info st f).1.file_count = increment_count st.file_count (extOf f.2) ∧
    (stepFile req env info st f).2 =
      [Event.probeCall (pathOf f),
        Event.encodeCall (pathOf f)
          (joinP (targetDir req f.1) ((pysplitext f.2).1 ++ "_temp." ++ req.musicFormat))] := by
  unfold stepFile
  dsimp only
  rw [if_pos haudio,
    if_neg (show ¬ ledgerHit info req.musicFormat req.bitrate (joinP f.1 f.2) = true by
      rw [show ledgerHit info req.musicFormat req.bitrate (joinP f.1 f.2) =
        ledgerHit info req.musicFormat req.bitrate (pathOf f) from rfl, hhit]; simp),
    if_neg (show ¬ ((env.probe (joinP f.1 f.2)).1 = some req.musicFormat ∧
      (env.probe (joinP f.1 f.2)).2 = some req.bitrate) from hpm),
    if_pos (show req.replaceMode = true from hrep),
    show env.encode (joinP f.1 f.2) = EncodeResult.success from henc]
  dsimp only
  rw [hrep]
  exact ⟨rfl, rfl, rfl, rfl, rfl, rfl⟩

/-! ### Counting lemmas -/

theorem count_append_singleton (l : List String) (q p : String) :
    (l ++ [q]).count p = l.count p + (if q = p then 1 else 0) := by
  rw [List.count_append]
  by_cases h : q = p
  · subst h; simp
  · rw [if_neg h]
    have h0 : List.count p [q] = 0 := by
      rw [List.count_eq_zero]
      simp
      exact fun hh => h hh.symm
    rw [h0]

theorem step_occTotal_audio (req : RunRequest) (env : Env) (info : Ledger) (st : RunState)
    (f : String × String) (haudio : audioExts.contains (extOf f.2) = true) (p : String) :
    occTotal p (stepFile req env info st f).1 =
      occTotal p st + (if pathOf f = p then 1 else 0) := by
  unfold stepFile
  dsimp only
  rw [if_pos haudio]
  by_cases hp : pathOf f = p
  · rw [if_pos hp]
    repeat' split
    all_goals simp only [occTotal, pathOf]
    all_goals rw [count_append_singleton, if_pos (show joinP f.1 f.2 = p from hp)]
    all_goals omega
  · rw [if_neg hp]
    repeat' split
    all_goals simp only [occTotal, pathOf]
    all_goals rw [count_append_singleton, if_neg (show ¬ joinP f.1 f.2 = p from hp)]
    all_goals omega

theorem step_occTotal_nonaudio (req : RunRequest) (env : Env) (info : Ledger) (st : RunState)
    (f : String × String) (hna : audioExts.contains (extOf f.2) = false) (p : String) :
    occTotal p (stepFile req env info st f).1 = occTotal p st := by
  obtain ⟨h1, h2, h3, h4, _⟩ := step_nonaudio req env info st f hna
  unfold occTotal
  rw [h1, h2, h3, h4]

theorem aux_occTotal (req : RunRequest) (env : Env) (info : Ledger) :
    ∀ (walk : List (String × String)) (st : RunState) (p : String),
      occTotal p (processFilesAux req env info walk st).1 =
        occTotal p st + countAudioAt p walk := by
  intro walk
  induction walk with
  | nil => intro st p; simp [countAudioAt, processFilesAux]
  | cons f rest ih =>
    intro st p
    dsimp only [processFilesAux]
    rw [ih]
    unfold countAudioAt
    rw [List.countP_cons]
    by_cases haf : audioExts.contains (extOf f.2) = true
    · rw [step_occTotal_audio req env info st f haf p]
      have he : ((pathOf f == p && audioExts.contains (extOf f.2)) = true) ↔ (pathOf f = p) := by
        rw [haf, Bool.and_true, beq_iff_eq]
      rw [if_congr he rfl rfl]
      omega
    · have hna : audioExts.contains (extOf f.2) = false := by
        cases hx : audioExts.contains (extOf f.2)
        · rfl
        · exact absurd hx haf
      rw [step_occTotal_nonaudio req env info st f hna p]
      have he : ((pathOf f == p && audioExts.contains (extOf f.2)) = true) ↔ False := by
        rw [hna, Bool.and_false]
        simp
      rw [if_congr he rfl rfl, if_neg id]
      omega

theorem countAudioAt_le_count (p : String) :
    ∀ walk : List (String × String), countAudioAt p walk ≤ (walk.map pathOf).count p := by
  intro walk
  induction walk with
  | nil => simp [countAudioAt]
  | cons f rest ih =>
    unfold countAudioAt at ih ⊢
    rw [List.countP_cons, List.map_cons, List.count_cons]
    have hb : (if (pathOf f == p && audioExts.contains (extOf f.2)) = true then 1 else 0) ≤
        (if (pathOf f == p) = true then 1 else 0) := by
      cases hA : (pathOf f == p) <;> cases hB : audioExts.contains (extOf f.2) <;>
        simp [hA, hB]
    omega

theorem countAudioAt_pos {p : String} {walk : List (String × String)}
    {f : String × String} (hf : f ∈ walk) (hp : pathOf f = p)
    (ha : audioExts.contains (extOf f.2) = true) : 1 ≤ countAudioAt p walk := by
  unfold countAudioAt
  have : 0 < walk.countP (fun g => pathOf g == p && audioExts.contains (extOf g.2)) := by
    rw [List.countP_pos_iff]
    refine ⟨f, hf, ?_⟩
    rw [ha, Bool.and_true, beq_iff_eq]
    exact hp
  omega

/-! ### Trace lemmas -/

set_option maxHeartbeats 2000000 in
theorem step_trace_sub (req : RunRequest) (env : Env) (info : Ledger) (st : RunState)
    (f : String × String) :
    ∀ ev ∈ (stepFile req env info st f).2,
      ev ∈ [Event.mkdirCall (targetDir req f.1),
            Event.probeCall (pathOf f),
            Event.encodeCall (pathOf f)
              (joinP (targetDir req f.1) ((pysplitext f.2).1 ++ "_temp." ++ req.musicFormat)),
            Event.encodeCall (pathOf f) (outputFileCopy req f),
            Event.copyCall (pathOf f) (targetDir req f.1)] := by
  intro ev hev
  unfold stepFile at hev
  dsimp only at hev
  simp only [pathOf, outputFileCopy, List.mem_cons, List.not_mem_nil, or_false]
  repeat' split at hev
  all_goals simp only [List.mem_append, List.mem_singleton, List.not_mem_nil,
    or_false, false_or] at hev
  all_goals tauto

theorem step_trace_src (req : RunRequest) (env : Env) (info : Ledger) (st : RunState)
    (f : String × String) :
    ∀ ev ∈ (stepFile req env info st f).2,
      evSrc ev = none ∨ evSrc ev = some (pathOf f) := by
  intro ev hev
  have h5 := step_trace_sub req env info st f ev hev
  simp only [List.mem_cons, List.not_mem_nil, or_false] at h5
  rcases h5 with rfl | rfl | rfl | rfl | rfl
  · exact Or.inl rfl
  · exact Or.inr rfl
  · exact Or.inr rfl
  · exact Or.inr rfl
  · exact Or.inr rfl

theorem aux_trace_hit (req : RunRequest) (env : Env) (info : Ledger) (p : String)
    (hhit : ledgerHit info req.musicFormat req.bitrate p = true) :
    ∀ (walk : List (String × String)) (st : RunState),
      (∀ f ∈ walk, pathOf f = p → audioExts.contains (extOf f.2) = true) →
      Event.probeCall p ∉ (processFilesAux req env info walk st).2 ∧
      (∀ d, Event.encodeCall p d ∉ (processFilesAux req env info walk st).2) ∧
      (∀ d, Event.copyCall p d ∉ (processFilesAux req env info walk st).2) := by
  intro walk
  induction walk with
  | nil =>
    intro st _
    refine ⟨by simp [processFilesAux], fun d => by simp [processFilesAux],
      fun d => by simp [processFilesAux]⟩
  | cons g rest ih =>
    intro st haud
    obtain ⟨ih1, ih2, ih3⟩ := ih (stepFile req env info st g).1
      (fun f hf => haud f (List.mem_cons_of_mem _ hf))
    have hstep : Event.probeCall p ∉ (stepFile req env info st g).2 ∧
        (∀ d, Event.encodeCall p d ∉ (stepFile req env info st g).2) ∧
        (∀ d, Event.copyCall p d ∉ (stepFile req env info st g).2) := by
      by_cases hgp : pathOf g = p
      · have hga : audioExts.contains (extOf g.2) = true :=
          haud g (List.mem_cons_self _ _) hgp
        obtain ⟨_, _, _, _, _, _, _, htr⟩ :=
          step_hit req env info st g hga (hgp ▸ hhit)
        rw [htr]
        constructor
        · split <;> simp
        constructor
        · intro d; split <;> simp
        · intro d; split <;> simp
      · refine ⟨?_, ?_, ?_⟩
        · intro hc
          rcases step_trace_src req env info st g _ hc with h | h <;>
            simp only [evSrc] at h
          · cases h
          · exact hgp (Option.some.inj h.symm)
        · intro d hc
          rcases step_trace_src req env info st g _ hc with h | h <;>
            simp only [evSrc] at h
          · cases h
          · exact hgp (Option.some.inj h.symm)
        · intro d hc
          rcases step_trace_src req env info st g _ hc with h | h <;>
            simp only [evSrc] at h
          · cases h
          · exact hgp (Option.some.inj h.symm)
    refine ⟨?_, ?_, ?_⟩
    · dsimp only [processFilesAux]
      rw [List.mem_append]
      rintro (hc | hc)
      · exact hstep.1 hc
      · exact ih1 hc
    · intro d
      dsimp only [processFilesAux]
      rw [List.mem_append]
      rintro (hc | hc)
      · exact hstep.2.1 d hc
      · exact ih2 d hc
    · intro d
      dsimp only [processFilesAux]
      rw [List.mem_append]
      rintro (hc | hc)
      · exact hstep.2.2 d hc
      · exact ih3 d hc

theorem aux_hit_skipped (req : RunRequest) (env : Env) (info : Ledger) {p : String}
    (hhit : ledgerHit info req.musicFormat req.bitrate p = true) :
    ∀ (walk : List (String × String)) (st : RunState) (f : String × String),
      f ∈ walk → pathOf f = p → audioExts.contains (extOf f.2) = true →
      p ∈ (processFilesAux req env info walk st).1.skipped_files := by
  intro walk
  induction walk with
  | nil => intro st f hf; exact absurd hf (List.not_mem_nil f)
  | cons g rest ih =>
    intro st f hf hfp hfa
    rcases List.mem_cons.mp hf with hf1 | hf1
    · subst hf1
      obtain ⟨hsk, _, _, _, _, _, _, _⟩ := step_hit req env info st f hfa (hfp ▸ hhit)
      obtain ⟨t, ht⟩ := aux_skipped_mono req env info rest (stepFile req env info st f).1
      dsimp only [processFilesAux]
      rw [ht, hsk, hfp]
      exact List.mem_append_left _ (List.mem_append_right _ (List.mem_singleton_self _))
    · dsimp only [processFilesAux]
      exact ih _ f hf1 hfp hfa

/-! ## Claim theorems -/

/-- C1 (amended): in copy mode, with the same request, the same walk
(the output root lying outside the input tree, so the walk of the
unchanged input tree is identical) and an environment in which the first
run had no failed conversions, a second run over the ledger and
filesystem the first run left behind converts nothing: its converted list
is empty and every discovered audio file lands in the skipped list
(skipped per ledger or skipped because the target already exists).  The
original claim quantified over replace mode as well and did not except
encoder failures; the counterexample theorem below refutes that stronger
form. -/
theorem C1_second_run_converts_nothing (req : RunRequest) (env : Env)
    (walk : List (String × String)) (info : Ledger) (fs0 : List String)
    (hrep : req.replaceMode = false)
    (hnofail : (process_files req env walk info fs0).1.failed_files = []) :
    (process_files req env walk (runOnce req env walk info fs0).ledgerAfter
        (runOnce req env walk info fs0).state.fs).1.converted_files = [] ∧
    ∀ f ∈ walk, audioExts.contains (extOf f.2) = true →
      pathOf f ∈ (process_files req env walk (runOnce req env walk info fs0).ledgerAfter
        (runOnce req env walk info fs0).state.fs).1.skipped_files := by
  have hst : (runOnce req env walk info fs0).state = (process_files req env walk info fs0).1 :=
    rfl
  rw [runOnce_ledgerAfter, hst]
  have hall : AllMatch req (process_files req env walk info fs0).1.new_conversions := by
    apply aux_allMatch
    intro kv hkv
    exact absurd hkv (List.not_mem_nil kv)
  have hnofail' : (processFilesAux req env info walk (initState fs0)).1.failed_files = [] :=
    hnofail
  have H : ∀ f ∈ walk, audioExts.contains (extOf f.2) = true →
      ledgerMatches (mergeLedger info (process_files req env walk info fs0).1.new_conversions)
          req (pathOf f) ∨
        (¬ probeMatches env req (pathOf f) ∧
          outputFileCopy req f ∈
            (initState (process_files req env walk info fs0).1.fs).fs) := by
    intro f hf haf
    rcases run1_cases req env info hrep walk (initState fs0) f hf haf with h | h | h | ⟨h1, h2⟩
    · rw [hnofail'] at h
      exact absurd h (List.not_mem_nil _)
    · exact Or.inl (mergeLedger_matches hall (Or.inl h))
    · exact Or.inl (mergeLedger_matches hall (Or.inr h))
    · exact Or.inr ⟨h1, h2⟩
  obtain ⟨h1, _, _, h4⟩ :=
    run2_skips req env
      (mergeLedger info (process_files req env walk info fs0).1.new_conversions) hrep walk
      (initState (process_files req env walk info fs0).1.fs) H
  exact ⟨h1, h4⟩

/-- C1 (counterexample): the claim as stated — over every run request,
every mode included — fails.  In replace mode a successful first run
deletes the source `in/a.flac` and leaves `in/a.mp3`; a second run with
the identical request over the tree exactly as the first run left it
finds no ledger entry for the new path, probes it, sees a bitrate other
than the requested one, and converts it again: the second run's converted
list is non-empty. -/
theorem C1_cex_second_run_converts : cexRun2.1.converted_files = ["in/a.mp3"] ∧
    cexRun1.state.converted_files = ["in/a.flac"] ∧
    cexRun1.state.failed_files = [] := by
  exact ⟨rfl, rfl, rfl⟩

/-- C1 (witness): concrete copy-mode instance of the amended idempotence
theorem: one flac file, empty starting ledger, successful first run; the
second run converts nothing and skips the file. -/
theorem C1_second_run_witness :
    (process_files wReq wEnv [("in", "a.flac")]
        (runOnce wReq wEnv [("in", "a.flac")] [] ["in/a.flac"]).ledgerAfter
        (runOnce wReq wEnv [("in", "a.flac")] [] ["in/a.flac"]).state.fs).1.converted_files
      = [] ∧
    "in/a.flac" ∈ (process_files wReq wEnv [("in", "a.flac")]
        (runOnce wReq wEnv [("in", "a.flac")] [] ["in/a.flac"]).ledgerAfter
        (runOnce wReq wEnv [("in", "a.flac")] [] ["in/a.flac"]).state.fs).1.skipped_files := by
  have h := C1_second_run_converts_nothing wReq wEnv [("in", "a.flac")] [] ["in/a.flac"]
    rfl (by decide)
  exact ⟨h.1, h.2 ("in", "a.flac") (List.mem_singleton_self _) (by decide)⟩

/-- C2 (amended): if the ledger loaded at run start holds an entry for an
audio path P whose format and bitrate equal the requested target, then
during the whole run P is recorded in the skipped list, the probe is never
invoked on P, the encoder is never invoked on P, and no sidecar copy reads
P; the only per-file call the engine makes while visiting P is the
idempotent creation of P's target directory in copy mode (`os.makedirs`
runs for every discovered file before the ledger check).  The original
claim's parenthetical "no probe or other file I/O is performed for P" is
refuted by that directory creation, witnessed by the counterexample
theorem below. -/
theorem C2_ledger_authority (req : RunRequest) (env : Env) (info : Ledger)
    (walk : List (String × String)) (fs0 : List String) (p : String)
    (hhit : ledgerHit info req.musicFormat req.bitrate p = true)
    (haud : ∀ f ∈ walk, pathOf f = p → audioExts.contains (extOf f.2) = true)
    (hdisc : ∃ f ∈ walk, pathOf f = p) :
    p ∈ (process_files req env walk info fs0).1.skipped_files ∧
    Event.probeCall p ∉ (process_files req env walk info fs0).2 ∧
    (∀ d, Event.encodeCall p d ∉ (process_files req env walk info fs0).2) ∧
    (∀ d, Event.copyCall p d ∉ (process_files req env walk info fs0).2) := by
  obtain ⟨f, hf, hfp⟩ := hdisc
  obtain ⟨h1, h2, h3⟩ := aux_trace_hit req env info p hhit walk (initState fs0) haud
  exact ⟨aux_hit_skipped req env info hhit walk (initState fs0) f hf hfp (haud f hf hfp),
    h1, h2, h3⟩

/-- C2 (witness): concrete run with a matching ledger entry for
`in/a.mp3`: the path is skipped and no probe/encode/copy touches it. -/
theorem C2_ledger_authority_witness :
    "in/a.mp3" ∈ (process_files wReq wEnv [("in", "a.mp3")] wInfoHit []).1.skipped_files ∧
    Event.probeCall "in/a.mp3" ∉ (process_files wReq wEnv [("in", "a.mp3")] wInfoHit []).2 := by
  have h := C2_ledger_authority wReq wEnv wInfoHit [("in", "a.mp3")] [] "in/a.mp3"
    (by decide) (by decide) ⟨("in", "a.mp3"), List.mem_singleton_self _, rfl⟩
  exact ⟨h.1, h.2.1⟩

/-- C2 (counterexample): the claim's "no probe or other file I/O is
performed for P" is false as stated: in copy mode the engine creates P's
target directory (the `os.makedirs` of line 382 runs before the ledger
check), so the run's trace for a single ledger-hit file is exactly one
mkdir call, not empty. -/
theorem C2_cex_mkdir_io :
    (process_files wReq wEnv [("in", "a.mp3")] wInfoHit []).2 =
      [Event.mkdirCall "out/."] ∧
    (process_files wReq wEnv [("in", "a.mp3")] wInfoHit []).1.skipped_files =
      ["in/a.mp3"] := by
  exact ⟨rfl, rfl⟩

/-- C4: when the encoder exits non-zero or raises (both modelled by
`env.encode ≠ success`), the file is appended to the failed list, the
filesystem is untouched (in particular the source file is never deleted),
no ledger entry is recorded for the path, the other outcome lists are
untouched, and the walk continues structurally with the remaining files. -/
theorem C4_encode_failure_isolated (req : RunRequest) (env : Env) (info : Ledger)
    (st : RunState) (f : String × String)
    (haudio : audioExts.contains (extOf f.2) = true)
    (hhit : ledgerHit info req.musicFormat req.bitrate (pathOf f) = false)
    (hpm : ¬ probeMatches env req (pathOf f))
    (hmode : req.replaceMode = true ∨ st.fs.contains (outputFileCopy req f) = false)
    (henc : env.encode (pathOf f) ≠ EncodeResult.success) :
    (stepFile req env info st f).1.failed_files = st.failed_files ++ [pathOf f] ∧
    (stepFile req env info st f).1.fs = st.fs ∧
    (stepFile req env info st f).1.new_conversions = st.new_conversions ∧
    (stepFile req env info st f).1.converted_files = st.converted_files ∧
    (stepFile req env info st f).1.skipped_files = st.skipped_files ∧
    (stepFile req env info st f).1.correct_files = st.correct_files ∧
    (∀ (rest : List (String × String)) (st0 : RunState),
      (processFilesAux req env info (f :: rest) st0).1 =
        (processFilesAux req env info rest (stepFile req env info st0 f).1).1) := by
  rcases hmode with hrep | hex
  · obtain ⟨a, b, c, d, e, g, _, _⟩ :=
      step_encode_fail_replace req env info st f hrep haudio hhit hpm henc
    exact ⟨a, g, e, b, c, d, fun rest st0 => rfl⟩
  · cases hrepv : req.replaceMode with
    | false =>
      obtain ⟨a, b, c, d, e, g, _, _⟩ :=
        step_encode_fail_copy req env info st f hrepv haudio hhit hpm hex henc
      exact ⟨a, g, e, b, c, d, fun rest st0 => rfl⟩
    | true =>
      obtain ⟨a, b, c, d, e, g, _, _⟩ :=
        step_encode_fail_replace req env info st f hrepv haudio hhit hpm henc
      exact ⟨a, g, e, b, c, d, fun rest st0 => rfl⟩

/-- C4 (witness): a failing encoder on `in/a.flac` in copy mode: the file
lands in the failed list and the filesystem (containing the source) is
unchanged. -/
theorem C4_encode_failure_witness :
    (stepFile wReq wEnvFail [] (initState ["in/a.flac"]) ("in", "a.flac")).1.failed_files =
      [] ++ ["in/a.flac"] ∧
    (stepFile wReq wEnvFail [] (initState ["in/a.flac"]) ("in", "a.flac")).1.fs =
      ["in/a.flac"] ∧
    (stepFile wReq wEnvFail [] (initState ["in/a.flac"]) ("in", "a.flac")).1.new_conversions
      = [] := by
  have h := C4_encode_failure_isolated wReq wEnvFail [] (initState ["in/a.flac"])
    ("in", "a.flac") (by decide) (by decide) (by unfold probeMatches; decide)
    (Or.inr (by decide)) (by decide)
  exact ⟨h.1, h.2.1, h.2.2.1⟩

/-- C5: in copy mode, for an audio file that passes the ledger and probe
checks but whose computed target file already exists, the engine appends
the source to the skipped list, adds no ledger entry, leaves the
filesystem unchanged, and the iteration's only external calls are the
mkdir and the probe — the encoder is never invoked, so the existing
target's content is never overwritten. -/
theorem C5_copy_mode_non_clobber (req : RunRequest) (env : Env) (info : Ledger)
    (st : RunState) (f : String × String) (hrep : req.replaceMode = false)
    (haudio : audioExts.contains (extOf f.2) = true)
    (hhit : ledgerHit info req.musicFormat req.bitrate (pathOf f) = false)
    (hpm : ¬ probeMatches env req (pathOf f))
    (hex : st.fs.contains (outputFileCopy req f) = true) :
    (stepFile req env info st f).1.skipped_files = st.skipped_files ++ [pathOf f] ∧
    (stepFile req env info st f).1.new_conversions = st.new_conversions ∧
    (stepFile req env info st f).1.fs = st.fs ∧
    (stepFile req env info st f).2 =
      [Event.mkdirCall (targetDir req f.1), Event.probeCall (pathOf f)] ∧
    (∀ s d, Event.encodeCall s d ∉ (stepFile req env info st f).2) := by
  obtain ⟨h1, _, _, _, h5, h6, _, h8⟩ := step_exists_skip req env info st f hrep haudio hhit hpm hex
  refine ⟨h1, h5, h6, h8, ?_⟩
  intro s d hc
  rw [h8] at hc
  rcases List.mem_cons.mp hc with h | h
  · cases h
  · rcases List.mem_singleton.mp h with h
    cases h

/-- C5 (witness): `out/./a.mp3` already exists before the run, so
`in/a.flac` is skipped, the filesystem is unchanged and no encode call is
made. -/
theorem C5_copy_mode_non_clobber_witness :
    (stepFile wReq wEnv [] (initState ["out/./a.mp3"]) ("in", "a.flac")).1.skipped_files =
      [] ++ ["in/a.flac"] ∧
    (stepFile wReq wEnv [] (initState ["out/./a.mp3"]) ("in", "a.flac")).1.fs =
      ["out/./a.mp3"] ∧
    (stepFile wReq wEnv [] (initState ["out/./a.mp3"]) ("in", "a.flac")).1.new_conversions
      = [] := by
  have h := C5_copy_mode_non_clobber wReq wEnv [] (initState ["out/./a.mp3"])
    ("in", "a.flac") rfl (by decide) (by decide) (by unfold probeMatches; decide) (by decide)
  exact ⟨h.1, h.2.2.1, h.2.1⟩


/-- C6: the probe returns (none, none) — and, being a total function,
never propagates an exception — on every failure path: tool not found,
timeout, non-zero exit, empty stdout, malformed JSON, and no audio
stream; and a probe failure makes the engine treat the file as needing
conversion: for any audio file that is not skipped by the ledger and (in
copy mode) whose target does not already exist, a (none, none) probe
result leads to an encoder invocation on the file. -/
theorem C6_probe_failure_fail_open :
    get_audio_info ProbeExec.toolNotFound = (none, none) ∧
    get_audio_info ProbeExec.timeoutExpired = (none, none) ∧
    (∀ (rc : Int) (ne : Bool) (pr : ParseResult), rc ≠ 0 →
      get_audio_info (ProbeExec.ran rc ne pr) = (none, none)) ∧
    (∀ (rc : Int) (pr : ParseResult),
      get_audio_info (ProbeExec.ran rc false pr) = (none, none)) ∧
    (∀ (rc : Int) (ne : Bool),
      get_audio_info (ProbeExec.ran rc ne ParseResult.jsonError) = (none, none)) ∧
    (∀ j : ProbeJson, findAudioStream j.streams = none →
      get_audio_info (ProbeExec.ran 0 true (ParseResult.ok j)) = (none, none)) ∧
    (∀ (req : RunRequest) (env : Env) (info : Ledger) (st : RunState)
        (f : String × String),
      audioExts.contains (extOf f.2) = true →
      ledgerHit info req.musicFormat req.bitrate (pathOf f) = false →
      env.probe (pathOf f) = (none, none) →
      (req.replaceMode = true ∨ st.fs.contains (outputFileCopy req f) = false) →
      ∃ dst, Event.encodeCall (pathOf f) dst ∈ (stepFile req env info st f).2) := by
  refine ⟨rfl, rfl, ?_, ?_, ?_, ?_, ?_⟩
  · intro rc ne pr hrc
    unfold get_audio_info
    dsimp only
    rw [if_neg (fun hc => hrc hc.1)]
  · intro rc pr
    unfold get_audio_info
    dsimp only
    rw [if_neg (fun hc => Bool.false_ne_true hc.2)]
  · intro rc ne
    unfold get_audio_info
    dsimp only
    split
    · rfl
    · rfl
  · intro j hno
    unfold get_audio_info
    dsimp only
    rw [if_pos ⟨rfl, rfl⟩, hno]
  · intro req env info st f haudio hhit hpr hmode
    have hpm : ¬ probeMatches env req (pathOf f) := by
      rintro ⟨h1, _⟩
      rw [hpr] at h1
      cases h1
    rcases hmode with hrep | hex
    · cases henc : env.encode (pathOf f) with
      | success =>
        obtain ⟨_, _, _, _, _, htr⟩ :=
          step_encode_success_replace req env info st f hrep haudio hhit hpm henc
        exact ⟨_, by rw [htr]; exact List.mem_cons_of_mem _ (List.mem_singleton_self _)⟩
      | nonZeroExit =>
        obtain ⟨_, _, _, _, _, _, _, htr⟩ :=
          step_encode_fail_replace req env info st f hrep haudio hhit hpm
            (by rw [henc]; intro hc; cases hc)
        exact ⟨_, by rw [htr]; exact List.mem_cons_of_mem _ (List.mem_singleton_self _)⟩
      | raised =>
        obtain ⟨_, _, _, _, _, _, _, htr⟩ :=
          step_encode_fail_replace req env info st f hrep haudio hhit hpm
            (by rw [henc]; intro hc; cases hc)
        exact ⟨_, by rw [htr]; exact List.mem_cons_of_mem _ (List.mem_singleton_self _)⟩
    · cases hrepv : req.replaceMode with
      | true =>
        cases henc : env.encode (pathOf f) with
        | success =>
          obtain ⟨_, _, _, _, _, htr⟩ :=
            step_encode_success_replace req env info st f hrepv haudio hhit hpm henc
          exact ⟨_, by rw [htr]; exact List.mem_cons_of_mem _ (List.mem_singleton_self _)⟩
        | nonZeroExit =>
          obtain ⟨_, _, _, _, _, _, _, htr⟩ :=
            step_encode_fail_replace req env info st f hrepv haudio hhit hpm
              (by rw [henc]; intro hc; cases hc)
          exact ⟨_, by rw [htr]; exact List.mem_cons_of_mem _ (List.mem_singleton_self _)⟩
        | raised =>
          obtain ⟨_, _, _, _, _, _, _, htr⟩ :=
            step_encode_fail_replace req env info st f hrepv haudio hhit hpm
              (by rw [henc]; intro hc; cases hc)
          exact ⟨_, by rw [htr]; exact List.mem_cons_of_mem _ (List.mem_singleton_self _)⟩
      | false =>
        cases henc : env.encode (pathOf f) with
        | success =>
          obtain ⟨_, _, _, _, _, _, _, htr⟩ :=
            step_encode_success_copy req env info st f hrepv haudio hhit hpm hex henc
          refine ⟨outputFileCopy req f, by rw [htr]; simp⟩
        | nonZeroExit =>
          obtain ⟨_, _, _, _, _, _, _, htr⟩ :=
            step_encode_fail_copy req env info st f hrepv haudio hhit hpm hex
              (by rw [henc]; intro hc; cases hc)
          refine ⟨outputFileCopy req f, by rw [htr]; simp⟩
        | raised =>
          obtain ⟨_, _, _, _, _, _, _, htr⟩ :=
            step_encode_fail_copy req env info st f hrepv haudio hhit hpm hex
              (by rw [henc]; intro hc; cases hc)
          refine ⟨outputFileCopy req f, by rw [htr]; simp⟩

/-- C6 (witness): a malformed-JSON probe run returns (none, none), and
with an all-failing probe the engine still invokes the encoder on
`in/a.flac`. -/
theorem C6_probe_failure_witness :
    get_audio_info (ProbeExec.ran 1 true ParseResult.jsonError) = (none, none) ∧
    ∃ dst, Event.encodeCall "in/a.flac" dst ∈
      (stepFile wReq wEnvProbeFail [] (initState []) ("in", "a.flac")).2 := by
  refine ⟨C6_probe_failure_fail_open.2.2.1 1 true ParseResult.jsonError (by decide), ?_⟩
  exact C6_probe_failure_fail_open.2.2.2.2.2.2 wReq wEnvProbeFail [] (initState [])
    ("in", "a.flac") (by decide) (by decide) rfl (Or.inr (by decide))

/-- C7 (amended): for a zero-exit probe with non-empty stdout and
well-formed JSON whose stream list contains an audio stream (the first
one found by the loop), and whose container format name is present: the
returned format is the first comma-separated token of `format_name`;
when the audio stream has no `bit_rate` the bitrate is absent; and when
its `bit_rate` parses to a non-negative integer b below 2^53 the
returned bitrate is the integer quotient b / 1000 suffixed with "k" —
in that range the binary64 division of line 271 truncates to the exact
integer quotient (`pyIntDiv1000F_eq`).  The original claim quantified
over every non-negative b; the counterexample theorem below refutes it
at b = 10^18 + 999, where the binary64 quotient rounds up across the
integer boundary. -/
theorem C7_probe_parse (j : ProbeJson) (s : StreamInfo) (fo : FormatInfo) (fn : String)
    (hs : findAudioStream j.streams = some s)
    (hfo : j.format = some fo) (hfn : fo.format_name = some fn) :
    (s.bit_rate = none →
      get_audio_info (ProbeExec.ran 0 true (ParseResult.ok j)) =
        (some ((splitChar fn ',').headD ""), none)) ∧
    (∀ (bs : String) (b : Int), s.bit_rate = some bs → pyToInt? bs = some b →
      0 ≤ b → b < 2 ^ 53 →
      get_audio_info (ProbeExec.ran 0 true (ParseResult.ok j)) =
        (some ((splitChar fn ',').headD ""), some (toString (b / 1000) ++ "k"))) := by
  constructor
  · intro hbr
    unfold get_audio_info
    dsimp only
    rw [if_pos ⟨rfl, rfl⟩, hs]
    dsimp only
    unfold parseAudioStream
    rw [hfo]
    dsimp only
    rw [hfn]
    dsimp only
    rw [hbr]
  · intro bs b hbs hbi hb hb53
    have hne : ¬ bs = "" := by
      intro he
      subst he
      cases hbi
    unfold get_audio_info
    dsimp only
    rw [if_pos ⟨rfl, rfl⟩, hs]
    dsimp only
    unfold parseAudioStream
    rw [hfo]
    dsimp only
    rw [hfn]
    dsimp only
    rw [hbs]
    dsimp only
    rw [if_neg hne, hbi]
    dsimp only
    rw [pyIntDiv1000F_eq b hb hb53]

/-- C7 (witness): a probe document with a leading video stream, an audio
stream at 320000 b/s and format name "mp3,mp2" yields ("mp3", "320k"),
and with the bitrate field absent yields ("mp3", none). -/
theorem C7_probe_parse_witness :
    get_audio_info (ProbeExec.ran 0 true (ParseResult.ok
      ⟨some ⟨some "mp3,mp2"⟩,
        [⟨some "video", none⟩, ⟨some "audio", some "320000"⟩]⟩)) =
      (some "mp3", some "320k") ∧
    get_audio_info (ProbeExec.ran 0 true (ParseResult.ok
      ⟨some ⟨some "mp3,mp2"⟩, [⟨some "audio", none⟩]⟩)) = (some "mp3", none) := by
  constructor
  · exact (C7_probe_parse ⟨some ⟨some "mp3,mp2"⟩,
      [⟨some "video", none⟩, ⟨some "audio", some "320000"⟩]⟩
      ⟨some "audio", some "320000"⟩ ⟨some "mp3,mp2"⟩ "mp3,mp2"
      (by decide) rfl rfl).2 "320000" 320000 rfl (by decide) (by decide) (by norm_num)
  · exact (C7_probe_parse ⟨some ⟨some "mp3,mp2"⟩, [⟨some "audio", none⟩]⟩
      ⟨some "audio", none⟩ ⟨some "mp3,mp2"⟩ "mp3,mp2"
      (by decide) rfl rfl).1 rfl

set_option maxRecDepth 40000 in
/-- C7 (counterexample): the claim as stated — for every non-negative
integer b — is false of the program.  At bit_rate "1000000000000000999"
(b = 10^18 + 999) the binary64 quotient b/1000 = 1000000000000000.999
rounds to 1000000000000001.0 (the gap between adjacent doubles in that
binade is 0.125), so `int()` yields 1000000000000001 and the program
returns "1000000000000001k", while the integer quotient b / 1000 is
1000000000000000, so the claim prescribes "1000000000000000k". -/
theorem C7_cex_binary64_rounding :
    get_audio_info (ProbeExec.ran 0 true (ParseResult.ok
      ⟨some ⟨some "mp3"⟩, [⟨some "audio", some "1000000000000000999"⟩]⟩)) =
      (some "mp3", some "1000000000000001k") ∧
    toString ((1000000000000000999 : Int) / 1000) ++ "k" = "1000000000000000k" ∧
    ("1000000000000001k" : String) ≠ "1000000000000000k" := by
  refine ⟨rfl, rfl, by decide⟩

/-- C3 (evaluated at the failing input): persisting the ledger is not
all-or-nothing.  `update_lock_file` opens the lock file itself with a
truncating write and dumps the merged snapshot directly into it — the
write trace is exactly [open-truncate target, write target], and it does
not satisfy the required write-to-temporary-then-atomically-rename
discipline (no rename at all, and the target is touched before the last
operation), so an interruption between the truncation and the completed
write leaves a half-written file at the ledger path. -/
theorem C3_lock_write_not_atomic :
    (update_lock_file ".convert.lock" []
        [("in/a.flac", ⟨"mp3", "192k", "t0", Status.converted⟩)]).1 =
      [FsWriteOp.openTruncate ".convert.lock",
       FsWriteOp.writeSnapshot ".convert.lock"
         [("in/a.flac", ⟨"mp3", "192k", "t0", Status.converted⟩)]] ∧
    ¬ writesViaTempThenRename
        (update_lock_file ".convert.lock" []
          [("in/a.flac", ⟨"mp3", "192k", "t0", Status.converted⟩)]).1 ".convert.lock" := by
  constructor
  · rfl
  · rintro ⟨tmp, hne, hpre, hlast⟩
    have h2 : (update_lock_file ".convert.lock" []
        [("in/a.flac", ⟨"mp3", "192k", "t0", Status.converted⟩)]).1.getLast? =
        some (FsWriteOp.writeSnapshot ".convert.lock"
          [("in/a.flac", ⟨"mp3", "192k", "t0", Status.converted⟩)]) := rfl
    rw [h2] at hlast
    cases Option.some.inj hlast

theorem validate_invalid (existingDirs : List String)
    (inp out fmt br : String) (mkdirOk : Bool)
    (hbad : fmt ∉ validFormats ∨ br ∉ validBitrates) :
    ∃ ds, validate_paths_and_parameters existingDirs inp out fmt br mkdirOk =
      ValidationOutcome.exitCode1 ds ∧ (ds = [] ∨ ds = [out]) := by
  unfold validate_paths_and_parameters
  repeat' split
  all_goals first
    | exact ⟨[], rfl, Or.inl rfl⟩
    | exact ⟨[out], rfl, Or.inr rfl⟩
    | (exfalso
       rcases hbad with h | h <;> simp_all)

/-- C8 (amended): whenever the requested format or bitrate is invalid,
`main` exits with code 1 before the engine runs (the run outcome is
absent), and nothing is created on disk except possibly the output root
directory: `validate_paths_and_parameters` creates a missing output
directory (line 188) before it checks the format (line 194) and bitrate
(line 199).  The original claim's "no file or directory is created
anywhere" is refuted by the counterexample theorem below. -/
theorem C8_validation_exit (existingDirs : List String)
    (inp out fmt br : String) (replaceMode mkdirOk : Bool) (env : Env)
    (walk : List (String × String)) (info : Ledger) (fs0 : List String)
    (hbad : fmt ∉ validFormats ∨ br ∉ validBitrates) :
    ∃ ds, mainAfterValidation existingDirs inp out fmt br replaceMode mkdirOk
        env walk info fs0 = (none, ds) ∧ (ds = [] ∨ ds = [out]) := by
  obtain ⟨ds, h1, h2⟩ := validate_invalid existingDirs inp out fmt br mkdirOk hbad
  refine ⟨ds, ?_, h2⟩
  unfold mainAfterValidation
  rw [h1]

/-- C8 (witness): invalid format "xyz" with an existing output directory:
exit code 1, engine never runs, nothing created. -/
theorem C8_validation_exit_witness :
    mainAfterValidation ["in", "out"] "in" "out" "xyz" "192k" false true
      wEnv [] [] [] = (none, []) := by
  obtain ⟨ds, h1, h2⟩ := C8_validation_exit ["in", "out"] "in" "out" "xyz" "192k"
    false true wEnv [] [] [] (Or.inl (by decide))
  rcases h2 with rfl | rfl
  · exact h1
  · exact absurd h1 (by decide)

/-- C8 (counterexample): with an invalid format and a missing output
root, the process still exits with code 1 before the engine runs, but the
output directory has been created: validation creates it before checking
the format, refuting "no file or directory is created ... anywhere,
including under the output root". -/
theorem C8_cex_output_dir_created :
    mainAfterValidation ["in"] "in" "out" "xyz" "192k" false true wEnv [] [] [] =
      (none, ["out"]) := by
  rfl

/-- C9: across one run, a source path is appended to the four outcome
lists (converted, skipped, failed, correct) at most once in total, and
every discovered audio file is recorded in exactly one of them — provided
the walk visits distinct paths, which `os.walk` guarantees. -/
theorem C9_outcome_partition (req : RunRequest) (env : Env) (info : Ledger)
    (walk : List (String × String)) (fs0 : List String)
    (hnd : (walk.map pathOf).Nodup) :
    (∀ p, occTotal p (process_files req env walk info fs0).1 ≤ 1) ∧
    (∀ f ∈ walk, audioExts.contains (extOf f.2) = true →
      occTotal (pathOf f) (process_files req env walk info fs0).1 = 1) := by
  have hocc : ∀ p, occTotal p (process_files req env walk info fs0).1 =
      countAudioAt p walk := by
    intro p
    have h := aux_occTotal req env info walk (initState fs0) p
    have h0 : occTotal p (initState fs0) = 0 := rfl
    rw [h0] at h
    simpa using h
  have hle1 : ∀ p, (walk.map pathOf).count p ≤ 1 :=
    List.nodup_iff_count_le_one.mp hnd
  constructor
  · intro p
    rw [hocc p]
    exact le_trans (countAudioAt_le_count p walk) (hle1 p)
  · intro f hf ha
    rw [hocc (pathOf f)]
    have h1 := countAudioAt_pos hf rfl ha
    have h2 := countAudioAt_le_count (pathOf f) walk
    have h3 := hle1 (pathOf f)
    omega

/-- C9 (witness): a two-file walk with distinct paths: the audio file has
exactly one outcome, and no path is double-counted. -/
theorem C9_outcome_partition_witness :
    occTotal "in/a.flac"
      (process_files wReq wEnv [("in", "a.flac"), ("in", "b.jpg")] [] []).1 = 1 ∧
    occTotal "in/b.jpg"
      (process_files wReq wEnv [("in", "a.flac"), ("in", "b.jpg")] [] []).1 ≤ 1 := by
  have h := C9_outcome_partition wReq wEnv [] [("in", "a.flac"), ("in", "b.jpg")] []
    (by decide)
  exact ⟨h.2 ("in", "a.flac") (List.mem_cons_self _ _) (by decide), h.1 "in/b.jpg"⟩

/-- C10: effect of each audio outcome on the "Total files processed" sum
of per-extension counts: a skip because the target file already exists
and a failed encode append the file to their outcome list without
incrementing any count, while a ledger skip, a probe-correct file and a
successful conversion each increment the count by one. -/
theorem C10_count_semantics (req : RunRequest) (env : Env) (info : Ledger)
    (st : RunState) (f : String × String)
    (haudio : audioExts.contains (extOf f.2) = true) :
    (ledgerHit info req.musicFormat req.bitrate (pathOf f) = true →
      totalProcessed (stepFile req env info st f).1 = totalProcessed st + 1 ∧
      (stepFile req env info st f).1.skipped_files = st.skipped_files ++ [pathOf f]) ∧
    (ledgerHit info req.musicFormat req.bitrate (pathOf f) = false →
      probeMatches env req (pathOf f) →
      totalProcessed (stepFile req env info st f).1 = totalProcessed st + 1 ∧
      (stepFile req env info st f).1.correct_files = st.correct_files ++ [pathOf f]) ∧
    (req.replaceMode = false →
      ledgerHit info req.musicFormat req.bitrate (pathOf f) = false →
      ¬ probeMatches env req (pathOf f) →
      st.fs.contains (outputFileCopy req f) = true →
      totalProcessed (stepFile req env info st f).1 = totalProcessed st ∧
      (stepFile req env info st f).1.skipped_files = st.skipped_files ++ [pathOf f]) ∧
    (ledgerHit info req.musicFormat req.bitrate (pathOf f) = false →
      ¬ probeMatches env req (pathOf f) →
      (req.replaceMode = true ∨ st.fs.contains (outputFileCopy req f) = false) →
      env.encode (pathOf f) = EncodeResult.success →
      totalProcessed (stepFile req env info st f).1 = totalProcessed st + 1 ∧
      (stepFile req env info st f).1.converted_files = st.converted_files ++ [pathOf f]) ∧
    (ledgerHit info req.musicFormat req.bitrate (pathOf f) = false →
      ¬ probeMatches env req (pathOf f) →
      (req.replaceMode = true ∨ st.fs.contains (outputFileCopy req f) = false) →
      env.encode (pathOf f) ≠ EncodeResult.success →
      totalProcessed (stepFile req env info st f).1 = totalProcessed st ∧
      (stepFile req env info st f).1.failed_files = st.failed_files ++ [pathOf f]) := by
  refine ⟨?_, ?_, ?_, ?_, ?_⟩
  · intro hhit
    obtain ⟨hsk, _, _, _, _, _, hcount, _⟩ := step_hit req env info st f haudio hhit
    refine ⟨?_, hsk⟩
    unfold totalProcessed
    rw [hcount, sum_increment_count]
  · intro hhit hpm
    obtain ⟨hcor, _, _, _, _, _, hcount, _⟩ := step_correct req env info st f haudio hhit hpm
    refine ⟨?_, hcor⟩
    unfold totalProcessed
    rw [hcount, sum_increment_count]
  · intro hrep hhit hpm hex
    obtain ⟨hsk, _, _, _, _, _, hcount, _⟩ :=
      step_exists_skip req env info st f hrep haudio hhit hpm hex
    refine ⟨?_, hsk⟩
    unfold totalProcessed
    rw [hcount]
  · intro hhit hpm hmode henc
    rcases hmode with hrep | hex
    · obtain ⟨hconv, _, _, _, hcount, _⟩ :=
        step_encode_success_replace req env info st f hrep haudio hhit hpm henc
      refine ⟨?_, hconv⟩
      unfold totalProcessed
      rw [hcount, sum_increment_count]
    · cases hrepv : req.replaceMode with
      | true =>
        obtain ⟨hconv, _, _, _, hcount, _⟩ :=
          step_encode_success_replace req env info st f hrepv haudio hhit hpm henc
        refine ⟨?_, hconv⟩
        unfold totalProcessed
        rw [hcount, sum_increment_count]
      | false =>
        obtain ⟨hconv, _, _, _, _, _, hcount, _⟩ :=
          step_encode_success_copy req env info st f hrepv haudio hhit hpm hex henc
        refine ⟨?_, hconv⟩
        unfold totalProcessed
        rw [hcount, sum_increment_count]
  · intro hhit hpm hmode henc
    rcases hmode with hrep | hex
    · obtain ⟨hfail, _, _, _, _, _, hcount, _⟩ :=
        step_encode_fail_replace req env info st f hrep haudio hhit hpm henc
      refine ⟨?_, hfail⟩
      unfold totalProcessed
      rw [hcount]
    · cases hrepv : req.replaceMode with
      | true =>
        obtain ⟨hfail, _, _, _, _, _, hcount, _⟩ :=
          step_encode_fail_replace req env info st f hrepv haudio hhit hpm henc
        refine ⟨?_, hfail⟩
        unfold totalProcessed
        rw [hcount]
      | false =>
        obtain ⟨hfail, _, _, _, _, _, hcount, _⟩ :=
          step_encode_fail_copy req env info st f hrepv haudio hhit hpm hex henc
        refine ⟨?_, hfail⟩
        unfold totalProcessed
        rw [hcount]

/-- C10 (witness): a ledger-skipped file is counted (total goes from 0 to
1) while an exists-skipped file is not (total stays 0), each landing in
the skipped list. -/
theorem C10_count_semantics_witness :
    totalProcessed (stepFile wReq wEnv wInfoHit (initState []) ("in", "a.mp3")).1 =
      totalProcessed (initState []) + 1 ∧
    totalProcessed (stepFile wReq wEnv [] (initState ["out/./a.mp3"]) ("in", "a.flac")).1 =
      totalProcessed (initState ["out/./a.mp3"]) := by
  constructor
  · exact ((C10_count_semantics wReq wEnv wInfoHit (initState []) ("in", "a.mp3")
      (by decide)).1 (by decide)).1
  · exact ((C10_count_semantics wReq wEnv [] (initState ["out/./a.mp3"]) ("in", "a.flac")
      (by decide)).2.2.1 rfl (by decide) (by unfold probeMatches; decide) (by decide)).1

end MusicConverter
